import Mathlib

/-!
# Verification of the invoice ingestion pipeline

Shallow embedding of the core of the Invoice-Management dashboard:

* `src/lib/dataUtils.ts` — the Identity Normalizer (`standardizeVendorName`),
* `src/app/dashboard/page.tsx` — `enhancedVendorNormalization` (override table),
* `src/lib/invoiceStorage.ts` — the Duplicate Resolver and Persistence
  Coordinator (`findExistingInvoice`, `saveInvoiceData`, `updateInvoiceData`),
* `src/app/api/process-invoice/route.ts` (batch variant) and
  `src/app/api/process-multiple-invoices/route.ts` — the Batch Orchestrator.

Strings are modelled as Lean `String`s over their character lists.  The model's
alphabet is the ASCII plane: the single Unicode-specific step of the source
(`String.prototype.normalize('NFKC')`) is the identity on ASCII and is modelled
by the identity function `nfkc`.  JavaScript's `toLowerCase`/`toUpperCase`,
`trim`, `\s`, `\b\w` and the regex character classes of the source are modelled
character-by-character below.
-/

namespace Invoice

/-! ## JavaScript character primitives -/

/-- The set matched by JavaScript `\s` (whitespace), by code point:
space, tab, LF, CR, VT, FF, NBSP, Ogham space, the U+2000–U+200A range,
LS, PS, NNBSP, MMSP, ideographic space, and the BOM. -/
def isJsWs (c : Char) : Bool :=
  decide (c.toNat = 32 ∨ c.toNat = 9 ∨ c.toNat = 10 ∨ c.toNat = 13 ∨
    c.toNat = 11 ∨ c.toNat = 12 ∨ c.toNat = 160 ∨ c.toNat = 5760 ∨
    (8192 ≤ c.toNat ∧ c.toNat ≤ 8202) ∨ c.toNat = 8232 ∨ c.toNat = 8233 ∨
    c.toNat = 8239 ∨ c.toNat = 8287 ∨ c.toNat = 12288 ∨ c.toNat = 65279)

/-- The zero-width characters removed by `replace(/[​-‍﻿]/g, '')`. -/
def isZeroWidth (c : Char) : Bool :=
  decide ((8203 ≤ c.toNat ∧ c.toNat ≤ 8205) ∨ c.toNat = 65279)

/-- Characters kept by `replace(/[^a-zA-Z0-9& -]/g, '')`:
ASCII letters, digits, ampersand, space and hyphen. -/
def keepChar (c : Char) : Bool :=
  decide ((97 ≤ c.toNat ∧ c.toNat ≤ 122) ∨ (65 ≤ c.toNat ∧ c.toNat ≤ 90) ∨
    (48 ≤ c.toNat ∧ c.toNat ≤ 57) ∨ c.toNat = 38 ∨ c.toNat = 32 ∨ c.toNat = 45)

/-- JavaScript `\w`: ASCII letters, digits and underscore. -/
def isWordChar (c : Char) : Bool :=
  decide ((97 ≤ c.toNat ∧ c.toNat ≤ 122) ∨ (65 ≤ c.toNat ∧ c.toNat ≤ 90) ∨
    (48 ≤ c.toNat ∧ c.toNat ≤ 57) ∨ c.toNat = 95)

/-- ASCII `toLowerCase` on one character (the model's alphabet is ASCII). -/
def jsLower (c : Char) : Char :=
  if 65 ≤ c.toNat ∧ c.toNat ≤ 90 then Char.ofNat (c.toNat + 32) else c

/-- ASCII `toUpperCase` on one character. -/
def jsUpper (c : Char) : Char :=
  if 97 ≤ c.toNat ∧ c.toNat ≤ 122 then Char.ofNat (c.toNat - 32) else c

theorem toNat_ofNat_of_lt {n : Nat} (h : n < 55296) : (Char.ofNat n).toNat = n := by
  rw [Char.ofNat, dif_pos (Or.inl h)]
  rfl

theorem char_eq_of_toNat_eq {a b : Char} (h : a.toNat = b.toNat) : a = b := by
  have ha := Char.ofNat_toNat a
  rw [h, Char.ofNat_toNat b] at ha
  exact ha.symm

theorem toNat_jsLower (c : Char) :
    (jsLower c).toNat = if 65 ≤ c.toNat ∧ c.toNat ≤ 90 then c.toNat + 32 else c.toNat := by
  unfold jsLower
  split
  · exact toNat_ofNat_of_lt (by omega)
  · rfl

theorem toNat_jsUpper (c : Char) :
    (jsUpper c).toNat = if 97 ≤ c.toNat ∧ c.toNat ≤ 122 then c.toNat - 32 else c.toNat := by
  unfold jsUpper
  split
  · exact toNat_ofNat_of_lt (by omega)
  · rfl

theorem jsLower_idem (c : Char) : jsLower (jsLower c) = jsLower c := by
  apply char_eq_of_toNat_eq
  simp only [toNat_jsLower]
  split_ifs <;> omega

theorem jsLower_jsUpper_jsLower (c : Char) :
    jsLower (jsUpper (jsLower c)) = jsLower c := by
  apply char_eq_of_toNat_eq
  simp only [toNat_jsLower, toNat_jsUpper]
  split_ifs <;> omega

theorem isWordChar_jsLower (c : Char) : isWordChar (jsLower c) = isWordChar c := by
  simp only [isWordChar, toNat_jsLower, decide_eq_decide]
  split_ifs <;> omega

theorem isWordChar_jsUpper (c : Char) : isWordChar (jsUpper c) = isWordChar c := by
  simp only [isWordChar, toNat_jsUpper, decide_eq_decide]
  split_ifs <;> omega

theorem isJsWs_jsLower (c : Char) : isJsWs (jsLower c) = isJsWs c := by
  simp only [isJsWs, toNat_jsLower, decide_eq_decide]
  split_ifs <;> omega

theorem isJsWs_jsUpper (c : Char) : isJsWs (jsUpper c) = isJsWs c := by
  simp only [isJsWs, toNat_jsUpper, decide_eq_decide]
  split_ifs <;> omega

theorem keepChar_jsLower (c : Char) : keepChar (jsLower c) = keepChar c := by
  simp only [keepChar, toNat_jsLower, decide_eq_decide]
  split_ifs <;> omega

theorem keepChar_jsUpper (c : Char) : keepChar (jsUpper c) = keepChar c := by
  simp only [keepChar, toNat_jsUpper, decide_eq_decide]
  split_ifs <;> omega

theorem eq_space_of_keep_ws {c : Char} (hk : keepChar c = true) (hw : isJsWs c = true) :
    c = ' ' := by
  apply char_eq_of_toNat_eq
  simp only [keepChar, decide_eq_true_eq] at hk
  simp only [isJsWs, decide_eq_true_eq] at hw
  show c.toNat = 32
  omega

theorem not_zeroWidth_of_keep {c : Char} (hk : keepChar c = true) :
    isZeroWidth c = false := by
  simp only [keepChar, decide_eq_true_eq] at hk
  simp only [isZeroWidth, decide_eq_false_iff_not]
  omega

theorem ne_period_of_keep {c : Char} (hk : keepChar c = true) : (c == '.') = false := by
  simp only [keepChar, decide_eq_true_eq] at hk
  simp only [beq_eq_false_iff_ne, ne_eq]
  intro h
  subst h
  have hdot : ('.' : Char).toNat = 46 := rfl
  omega

/-! ## The Identity Normalizer (`standardizeVendorName`, dataUtils.ts) -/

/-- `String.prototype.normalize('NFKC')`, modelled as the identity: the model's
alphabet is the ASCII plane, on which NFKC normalization is the identity.
Outside ASCII this model is unfaithful — NFKC maps compatibility symbols into
alphanumerics (U+2122 TRADE MARK SIGN becomes "TM", U+2460 CIRCLED DIGIT ONE
becomes "1") — so every theorem below that pins down an absolute output of the
normalizer restricts its input to ASCII code points, where the model and the
source agree extensionally. -/
def nfkc (l : List Char) : List Char := l

/-- `replace(/[​-‍﻿]/g, '')` — remove zero-width characters. -/
def removeZeroWidth (l : List Char) : List Char := l.filter (fun c => !isZeroWidth c)

/-- `replace(/\./g, '')` — remove periods. -/
def removePeriods (l : List Char) : List Char := l.filter (fun c => !(c == '.'))

/-- Worker for `replace(/\s+/g, ' ')`: each maximal run of whitespace becomes a
single space.  `prevWs` records whether the previous character was whitespace
(in which case the current run has already emitted its space). -/
def collapseGo (prevWs : Bool) : List Char → List Char
  | [] => []
  | c :: rest =>
    if isJsWs c then
      if prevWs then collapseGo true rest else ' ' :: collapseGo true rest
    else c :: collapseGo false rest

/-- `replace(/\s+/g, ' ')` — collapse whitespace runs to single spaces. -/
def collapseWs (l : List Char) : List Char := collapseGo false l

/-- `replace(/[^a-zA-Z0-9& -]/g, '')` — strip everything but the basic chars. -/
def stripDisallowed (l : List Char) : List Char := l.filter keepChar

/-- JavaScript `trim()` — drop whitespace from both ends. -/
def trimWs (l : List Char) : List Char :=
  ((l.dropWhile isJsWs).reverse.dropWhile isJsWs).reverse

/-- `toLowerCase()` (ASCII). -/
def lowerAll (l : List Char) : List Char := l.map jsLower

/-- Worker for `replace(/\b\w/g, c => c.toUpperCase())`: a word character is
uppercased exactly when the previous character was not a word character. -/
def titleGo (prevWord : Bool) : List Char → List Char
  | [] => []
  | c :: rest =>
    (if isWordChar c && !prevWord then jsUpper c else c) :: titleGo (isWordChar c) rest

/-- `replace(/\b\w/g, c => c.toUpperCase())` — title-case word boundaries. -/
def titleWords (l : List Char) : List Char := titleGo false l

/-- The body of `standardizeVendorName`, as a character-list pipeline, in
source order: NFKC, zero-width removal, period removal, whitespace collapse,
stripping, trim, lowercase, title-case. -/
def normalizeChars (l : List Char) : List Char :=
  titleWords (lowerAll (trimWs (stripDisallowed (collapseWs (removePeriods
    (removeZeroWidth (nfkc l)))))))

/-- `standardizeVendorName` (dataUtils.ts lines 23–36).  The guard models
`if (!vendorName || typeof vendorName !== 'string') return ''`. -/
def standardizeVendorName (s : String) : String :=
  if s = "" then "" else String.mk (normalizeChars s.data)

/-- `standardizeVendorName` applied to a possibly-absent (`null`/`undefined`)
argument: any non-string input yields the empty string. -/
def standardizeVendorNameOpt (o : Option String) : String :=
  match o with
  | none => ""
  | some s => standardizeVendorName s

/-- JavaScript `trim()` on a `String`. -/
def jsTrimStr (s : String) : String := String.mk (trimWs s.data)

/-- JavaScript `toLowerCase()` on a `String` (ASCII). -/
def jsLowerStr (s : String) : String := String.mk (lowerAll s.data)

/-! ## `enhancedVendorNormalization` (dashboard/page.tsx lines 556–584) -/

/-- The fixed override table (`normalizationRules`), in source order. -/
def normalizationRules : List (String × String) :=
  [("Trash Taxi Of Gallc", "Trash Taxi Of Ga Llc"),
   ("Trash Taxi Of GA LLC", "Trash Taxi Of Ga Llc"),
   ("Trash Taxi Of GA Llc", "Trash Taxi Of Ga Llc"),
   ("WM Corporate Services Inc", "Wm Corporate Services Inc"),
   ("WM CORPORATE SERVICES INC", "Wm Corporate Services Inc"),
   ("Georgia Waste Systems LLC", "Georgia Waste Systems Llc"),
   ("GEORGIA WASTE SYSTEMS LLC", "Georgia Waste Systems Llc"),
   ("Valley Pallet And Crating LLC", "Valley Pallet And Crating Llc"),
   ("VALLEY PALLET AND CRATING LLC", "Valley Pallet And Crating Llc")]

/-- The rule-application loop: first matching variant wins, applied once. -/
def applyRules (s : String) : String :=
  match normalizationRules.find? (fun p => s == p.1) with
  | some p => p.2
  | none => s

/-- `enhancedVendorNormalization`: blank input maps to `"Unknown"`, otherwise
the trimmed input is normalized generically and then the override table is
applied. -/
def enhancedVendorNormalization (name : Option String) : String :=
  match name with
  | none => "Unknown"
  | some s => if jsTrimStr s = "" then "Unknown" else applyRules (standardizeVendorName (jsTrimStr s))

example : standardizeVendorName "&" = "&" := by decide
example : standardizeVendorName "a ! b" = "A  B" := by decide
example : standardizeVendorName "A  B" = "A B" := by decide
example : standardizeVendorName "Trash Taxi of GA. LLC" = "Trash Taxi Of Ga Llc" := by decide
example : enhancedVendorNormalization (some ".") = "" := by decide
example : enhancedVendorNormalization (some "") = "Unknown" := by decide

/-! ## Properties of the pipeline stages -/

/-- No two adjacent whitespace characters. -/
def wsPairFree (l : List Char) : Prop :=
  l.Chain' (fun a b => isJsWs a = false ∨ isJsWs b = false)

theorem collapseGo_nil (p : Bool) : collapseGo p [] = [] := rfl

theorem collapseGo_cons_ws_true {c : Char} (hw : isJsWs c = true) (rest : List Char) :
    collapseGo true (c :: rest) = collapseGo true rest := by
  simp [collapseGo, hw]

theorem collapseGo_cons_ws_false {c : Char} (hw : isJsWs c = true) (rest : List Char) :
    collapseGo false (c :: rest) = ' ' :: collapseGo true rest := by
  simp [collapseGo, hw]

theorem collapseGo_cons_not_ws {c : Char} (hw : isJsWs c = false) (p : Bool)
    (rest : List Char) : collapseGo p (c :: rest) = c :: collapseGo false rest := by
  simp [collapseGo, hw]

theorem mem_collapseGo {c : Char} :
    ∀ (l : List Char) (p : Bool), c ∈ collapseGo p l → c = ' ' ∨ (c ∈ l ∧ isJsWs c = false)
  | [], _, h => by simp [collapseGo_nil] at h
  | d :: rest, p, h => by
    by_cases hw : isJsWs d = true
    · have h' : c ∈ collapseGo true rest ∨ c = ' ' := by
        cases p with
        | true =>
          rw [collapseGo_cons_ws_true hw] at h
          exact Or.inl h
        | false =>
          rw [collapseGo_cons_ws_false hw, List.mem_cons] at h
          exact h.symm.imp_left id
      rcases h' with h' | h'
      · rcases mem_collapseGo rest true h' with h'' | h''
        · exact Or.inl h''
        · exact Or.inr ⟨List.mem_cons_of_mem _ h''.1, h''.2⟩
      · exact Or.inl h'
    · simp only [Bool.not_eq_true] at hw
      rw [collapseGo_cons_not_ws hw, List.mem_cons] at h
      rcases h with h | h
      · exact Or.inr ⟨by simp [h], by simpa [h] using hw⟩
      · rcases mem_collapseGo rest false h with h' | h'
        · exact Or.inl h'
        · exact Or.inr ⟨List.mem_cons_of_mem _ h'.1, h'.2⟩

theorem head_collapseGo_true {d : Char} :
    ∀ l : List Char, (collapseGo true l).head? = some d → isJsWs d = false
  | [], h => by simp [collapseGo_nil] at h
  | c :: rest, h => by
    by_cases hw : isJsWs c = true
    · rw [collapseGo_cons_ws_true hw] at h
      exact head_collapseGo_true rest h
    · simp only [Bool.not_eq_true] at hw
      rw [collapseGo_cons_not_ws hw, List.head?_cons, Option.some.injEq] at h
      rw [← h]
      exact hw

theorem wsPairFree_collapseGo : ∀ (l : List Char) (p : Bool), wsPairFree (collapseGo p l)
  | [], p => by simp [collapseGo_nil, wsPairFree]
  | c :: rest, p => by
    by_cases hw : isJsWs c = true
    · cases p with
      | true =>
        rw [collapseGo_cons_ws_true hw]
        exact wsPairFree_collapseGo rest true
      | false =>
        rw [collapseGo_cons_ws_false hw]
        refine List.chain'_cons'.mpr ⟨?_, wsPairFree_collapseGo rest true⟩
        intro y hy
        exact Or.inr (head_collapseGo_true rest hy)
    · simp only [Bool.not_eq_true] at hw
      rw [collapseGo_cons_not_ws hw]
      refine List.chain'_cons'.mpr ⟨?_, wsPairFree_collapseGo rest false⟩
      intro y _
      exact Or.inl hw

theorem collapseGo_fix :
    ∀ (l : List Char) (p : Bool), (∀ c ∈ l, isJsWs c = true → c = ' ') → wsPairFree l →
      (p = true → ∀ d, l.head? = some d → isJsWs d = false) → collapseGo p l = l
  | [], _, _, _, _ => rfl
  | c :: rest, p, h1, h2, h3 => by
    by_cases hw : isJsWs c = true
    · have hp : p = false := by
        cases p with
        | true => exact absurd hw (by simp [h3 rfl c rfl])
        | false => rfl
      subst hp
      have hc : c = ' ' := h1 c (List.mem_cons_self c rest) hw
      rw [collapseGo_cons_ws_false hw, ← hc]
      congr 1
      refine collapseGo_fix rest true (fun x hx => h1 x (List.mem_cons_of_mem _ hx))
        (List.Chain'.tail h2) ?_
      intro _ d hd
      have hpair := (List.chain'_cons'.mp h2).1 d hd
      rcases hpair with h | h
      · exact absurd hw (by simp [h])
      · exact h
    · simp only [Bool.not_eq_true] at hw
      rw [collapseGo_cons_not_ws hw]
      congr 1
      exact collapseGo_fix rest false (fun x hx => h1 x (List.mem_cons_of_mem _ hx))
        (List.Chain'.tail h2) (fun h => by simp at h)

theorem dropWhile_eq_self_of_head {p : Char → Bool} {l : List Char}
    (h : ∀ d, l.head? = some d → p d = false) : l.dropWhile p = l := by
  cases l with
  | nil => rfl
  | cons c rest => simp [List.dropWhile_cons, h c rfl]

theorem head?_dropWhile_false {p : Char → Bool} {d : Char} :
    ∀ l : List Char, (l.dropWhile p).head? = some d → p d = false
  | [], h => by simp at h
  | c :: rest, h => by
    rw [List.dropWhile_cons] at h
    by_cases hp : p c = true
    · rw [if_pos hp] at h
      exact head?_dropWhile_false rest h
    · simp only [Bool.not_eq_true] at hp
      simp only [hp, Bool.false_eq_true, if_false, List.head?_cons, Option.some.injEq] at h
      rw [← h]
      exact hp

theorem trimWs_eq_self {l : List Char}
    (hh : ∀ d, l.head? = some d → isJsWs d = false)
    (hl : ∀ d, l.getLast? = some d → isJsWs d = false) : trimWs l = l := by
  unfold trimWs
  rw [dropWhile_eq_self_of_head hh]
  rw [dropWhile_eq_self_of_head (by simpa using hl)]
  exact List.reverse_reverse l

theorem head?_trimWs {l : List Char} {d : Char}
    (h : (trimWs l).head? = some d) : isJsWs d = false := by
  unfold trimWs at h
  rw [List.head?_reverse] at h
  obtain ⟨w, hw⟩ := List.dropWhile_suffix (l := (l.dropWhile isJsWs).reverse) isJsWs
  have hZ : ((l.dropWhile isJsWs).reverse).getLast? = some d := by
    rw [← hw, List.getLast?_append, h]
    rfl
  rw [List.getLast?_reverse] at hZ
  exact head?_dropWhile_false l hZ

theorem getLast?_trimWs {l : List Char} {d : Char}
    (h : (trimWs l).getLast? = some d) : isJsWs d = false := by
  unfold trimWs at h
  rw [List.getLast?_reverse] at h
  exact head?_dropWhile_false _ h

theorem mem_trimWs {l : List Char} {c : Char} (h : c ∈ trimWs l) : c ∈ l := by
  unfold trimWs at h
  rw [List.mem_reverse] at h
  have h1 := (List.dropWhile_suffix (l := (l.dropWhile isJsWs).reverse) isJsWs).subset h
  rw [List.mem_reverse] at h1
  exact (List.dropWhile_suffix isJsWs).subset h1

theorem wsPairFree_reverse {l : List Char} (h : wsPairFree l) : wsPairFree l.reverse := by
  unfold wsPairFree at h ⊢
  rw [List.chain'_reverse]
  exact h.imp (fun a b hab => hab.symm)

theorem wsPairFree_trimWs {l : List Char} (h : wsPairFree l) : wsPairFree (trimWs l) := by
  unfold trimWs
  exact wsPairFree_reverse
    ((wsPairFree_reverse (h.suffix (List.dropWhile_suffix isJsWs))).suffix
      (List.dropWhile_suffix isJsWs))

theorem trimWs_eq_nil_of_all_ws {l : List Char} (h : ∀ c ∈ l, isJsWs c = true) :
    trimWs l = [] := by
  unfold trimWs
  rw [List.dropWhile_eq_nil_iff.mpr h]
  rfl

/-! ## Case-mapping stage -/

/-- Each character that `titleGo ∘ lowerAll` emits is the lowercased original
or the uppercased lowercased original. -/
theorem titleLower_forall₂ :
    ∀ (m : List Char) (p : Bool),
      List.Forall₂ (fun a b => a = jsLower b ∨ a = jsUpper (jsLower b))
        (titleGo p (lowerAll m)) m
  | [], _ => List.Forall₂.nil
  | c :: m', p => by
    show List.Forall₂ _ (titleGo p (jsLower c :: lowerAll m')) (c :: m')
    simp only [titleGo]
    refine List.Forall₂.cons ?_ (titleLower_forall₂ m' (isWordChar (jsLower c)))
    by_cases h : (isWordChar (jsLower c) && !p) = true
    · rw [if_pos h]
      exact Or.inr rfl
    · rw [if_neg h]
      exact Or.inl rfl

/-- The case maps preserve the whitespace flag and the kept-character flag. -/
theorem flags_of_caseRel {a b : Char} (h : a = jsLower b ∨ a = jsUpper (jsLower b)) :
    isJsWs a = isJsWs b ∧ keepChar a = keepChar b := by
  rcases h with h | h <;> subst h
  · exact ⟨isJsWs_jsLower b, keepChar_jsLower b⟩
  · rw [isJsWs_jsUpper, isJsWs_jsLower, keepChar_jsUpper, keepChar_jsLower]
    exact ⟨rfl, rfl⟩

theorem wsPairFree_of_forall₂ :
    ∀ {l m : List Char}, List.Forall₂ (fun a b => isJsWs a = isJsWs b) l m →
      wsPairFree m → wsPairFree l
  | _, _, List.Forall₂.nil, _ => List.chain'_nil
  | _, _, List.Forall₂.cons (a := a) (b := b) hab htail, hm => by
    cases htail with
    | nil => exact List.chain'_singleton a
    | cons hab₂ htail₂ =>
      rw [wsPairFree, List.chain'_cons] at hm ⊢
      refine ⟨?_, wsPairFree_of_forall₂ (List.Forall₂.cons hab₂ htail₂) hm.2⟩
      rw [hab, hab₂]
      exact hm.1

theorem head?_of_forall₂ {S : Char → Char → Prop} {l m : List Char} {a : Char}
    (h : List.Forall₂ S l m) (ha : l.head? = some a) :
    ∃ b, m.head? = some b ∧ S a b := by
  cases h with
  | nil => simp at ha
  | cons hab htail =>
    rw [List.head?_cons, Option.some.injEq] at ha
    exact ⟨_, rfl, ha ▸ hab⟩

theorem getLast?_of_forall₂ {S : Char → Char → Prop} {l m : List Char} {a : Char}
    (h : List.Forall₂ S l m) (ha : l.getLast? = some a) :
    ∃ b, m.getLast? = some b ∧ S a b := by
  rw [← List.head?_reverse] at ha
  obtain ⟨b, hb, hS⟩ := head?_of_forall₂ (List.forall₂_reverse_iff.mpr h) ha
  rw [List.head?_reverse] at hb
  exact ⟨b, hb, hS⟩

/-- Lower-then-titlecase is idempotent. -/
theorem titleLower_idem :
    ∀ (l : List Char) (p : Bool),
      titleGo p (lowerAll (titleGo p (lowerAll l))) = titleGo p (lowerAll l)
  | [], _ => rfl
  | c :: l', p => by
    show titleGo p (lowerAll (titleGo p (jsLower c :: lowerAll l'))) = _
    simp only [titleGo]
    set z := jsLower c with hz
    set x := if isWordChar z && !p then jsUpper z else z with hx
    have hlx : jsLower x = z := by
      rw [hx]
      by_cases h : (isWordChar z && !p) = true
      · rw [if_pos h, hz, jsLower_jsUpper_jsLower]
      · rw [if_neg h, hz, jsLower_idem]
    have hwx : isWordChar z = isWordChar c := by
      rw [hz, isWordChar_jsLower]
    show titleGo p (jsLower x :: lowerAll (titleGo (isWordChar z) (lowerAll l'))) = _
    simp only [titleGo, hlx]
    rw [← hx]
    exact congrArg (List.cons x) (titleLower_idem l' (isWordChar z))

/-! ## Idempotence of the normalizer on inputs the stripping step keeps whole -/

/-- A character the stripping step does not remove behind the whitespace
collapse's back: kept, whitespace, a period, or zero-width. -/
def safeChar (c : Char) : Bool := keepChar c || isJsWs c || (c == '.') || isZeroWidth c

theorem mem_of_forall₂ {S : Char → Char → Prop} :
    ∀ {l m : List Char}, List.Forall₂ S l m → ∀ a ∈ l, ∃ b ∈ m, S a b
  | _, _, List.Forall₂.nil, a, ha => by simp at ha
  | _, _, List.Forall₂.cons hab htail, a, ha => by
    rw [List.mem_cons] at ha
    rcases ha with ha | ha
    · exact ⟨_, List.mem_cons_self _ _, ha ▸ hab⟩
    · obtain ⟨b, hb, hS⟩ := mem_of_forall₂ htail a ha
      exact ⟨b, List.mem_cons_of_mem _ hb, hS⟩

theorem keep_of_safe_stage {l : List Char} (hs : ∀ c ∈ l, safeChar c = true) :
    ∀ c ∈ collapseWs (removePeriods (removeZeroWidth l)), keepChar c = true := by
  intro c hc
  rcases mem_collapseGo _ false hc with h | ⟨hmem, hnw⟩
  · rw [h]
    decide
  · rw [removePeriods, List.mem_filter] at hmem
    obtain ⟨hmem2, hnp⟩ := hmem
    rw [removeZeroWidth, List.mem_filter] at hmem2
    obtain ⟨hmem3, hnz⟩ := hmem2
    have hsafe := hs c hmem3
    simp only [safeChar, Bool.or_eq_true] at hsafe
    rcases hsafe with ((hk | hw) | hp) | hz
    · exact hk
    · rw [hw] at hnw
      cases hnw
    · rw [hp] at hnp
      cases hnp
    · rw [hz] at hnz
      cases hnz

theorem stripDisallowed_eq_of_safe {l : List Char} (hs : ∀ c ∈ l, safeChar c = true) :
    stripDisallowed (collapseWs (removePeriods (removeZeroWidth l))) =
      collapseWs (removePeriods (removeZeroWidth l)) :=
  List.filter_eq_self.mpr (keep_of_safe_stage hs)

theorem normalizeChars_fix {out : List Char}
    (hKeep : ∀ c ∈ out, keepChar c = true)
    (hPF : wsPairFree out)
    (hHead : ∀ d, out.head? = some d → isJsWs d = false)
    (hLast : ∀ d, out.getLast? = some d → isJsWs d = false)
    (hUL : ∃ m, out = titleGo false (lowerAll m)) :
    normalizeChars out = out := by
  have h1 : removeZeroWidth (nfkc out) = out := by
    refine List.filter_eq_self.mpr ?_
    intro c hc
    rw [not_zeroWidth_of_keep (hKeep c hc)]
    rfl
  have h2 : removePeriods out = out := by
    refine List.filter_eq_self.mpr ?_
    intro c hc
    rw [ne_period_of_keep (hKeep c hc)]
    rfl
  have h3 : collapseWs out = out :=
    collapseGo_fix out false
      (fun c hc hw => eq_space_of_keep_ws (hKeep c hc) hw) hPF (fun h => by cases h)
  have h4 : stripDisallowed out = out := List.filter_eq_self.mpr hKeep
  have h5 : trimWs out = out := trimWs_eq_self hHead hLast
  obtain ⟨m, hm⟩ := hUL
  unfold normalizeChars
  rw [h1, h2]
  show titleWords (lowerAll (trimWs (stripDisallowed (collapseWs out)))) = out
  rw [h3, h4, h5, hm]
  exact titleLower_idem m false

theorem normalizeChars_normalizeChars {l : List Char}
    (hs : ∀ c ∈ l, safeChar c = true) :
    normalizeChars (normalizeChars l) = normalizeChars l := by
  have hmid := stripDisallowed_eq_of_safe hs
  set mid := trimWs (collapseWs (removePeriods (removeZeroWidth l))) with hmiddef
  have hout : normalizeChars l = titleGo false (lowerAll mid) := by
    unfold normalizeChars
    show titleWords (lowerAll (trimWs (stripDisallowed (collapseWs (removePeriods
      (removeZeroWidth l)))))) = _
    rw [hmid]
    rfl
  have midKeep : ∀ c ∈ mid, keepChar c = true :=
    fun c hc => keep_of_safe_stage hs c (mem_trimWs hc)
  have midPF : wsPairFree mid := wsPairFree_trimWs (wsPairFree_collapseGo _ false)
  have caseF := titleLower_forall₂ mid false
  rw [hout] at *
  apply normalizeChars_fix
  · intro c hc
    obtain ⟨b, hb, hS⟩ := mem_of_forall₂ caseF c hc
    rw [(flags_of_caseRel hS).2]
    exact midKeep b hb
  · exact wsPairFree_of_forall₂
      (caseF.imp (fun a b hab => (flags_of_caseRel hab).1)) midPF
  · intro d hd
    obtain ⟨b, hb, hS⟩ := head?_of_forall₂ caseF hd
    rw [(flags_of_caseRel hS).1]
    exact head?_trimWs hb
  · intro d hd
    obtain ⟨b, hb, hS⟩ := getLast?_of_forall₂ caseF hd
    rw [(flags_of_caseRel hS).1]
    exact getLast?_trimWs hb
  · exact ⟨mid, rfl⟩

/-- Idempotence of `standardizeVendorName` on inputs all of whose characters
survive the stripping step (or are erased before it). -/
theorem standardizeVendorName_idem_safe {s : String}
    (hs : ∀ c ∈ s.data, safeChar c = true) :
    standardizeVendorName (standardizeVendorName s) = standardizeVendorName s := by
  unfold standardizeVendorName
  by_cases h0 : s = ""
  · simp [h0]
  · rw [if_neg h0]
    by_cases hnil : normalizeChars s.data = []
    · rw [hnil]
      simp
    · have hmk : String.mk (normalizeChars s.data) ≠ "" := by
        intro hcontra
        exact hnil (congrArg String.data hcontra)
      rw [if_neg hmk]
      show String.mk (normalizeChars (normalizeChars s.data)) = _
      rw [normalizeChars_normalizeChars hs]

/-! ## Bridges to `Char.isAlpha` / `Char.isDigit`, and further normalizer facts -/

theorem uint32_le_iff (a b : UInt32) : a ≤ b ↔ a.toNat ≤ b.toNat := Iff.rfl

theorem isAlpha_iff_toNat (c : Char) :
    c.isAlpha = true ↔ (65 ≤ c.toNat ∧ c.toNat ≤ 90) ∨ (97 ≤ c.toNat ∧ c.toNat ≤ 122) := by
  simp only [Char.isAlpha, Char.isUpper, Char.isLower, Bool.or_eq_true, Bool.and_eq_true,
    decide_eq_true_eq, ge_iff_le, uint32_le_iff]
  exact Iff.rfl

theorem isDigit_iff_toNat (c : Char) :
    c.isDigit = true ↔ 48 ≤ c.toNat ∧ c.toNat ≤ 57 := by
  simp only [Char.isDigit, Bool.and_eq_true, decide_eq_true_eq, ge_iff_le, uint32_le_iff]
  exact Iff.rfl

theorem toNat_ne_of_ne {c d : Char} (h : c ≠ d) : c.toNat ≠ d.toNat :=
  fun hn => h (char_eq_of_toNat_eq hn)

/-- The output of `normalizeChars` never starts or ends with whitespace, so a
JavaScript `trim()` leaves it unchanged. -/
theorem trimWs_normalizeChars (l : List Char) :
    trimWs (normalizeChars l) = normalizeChars l := by
  have caseF := titleLower_forall₂
    (trimWs (stripDisallowed (collapseWs (removePeriods (removeZeroWidth (nfkc l)))))) false
  apply trimWs_eq_self
  · intro d hd
    obtain ⟨b, hb, hS⟩ := head?_of_forall₂ caseF hd
    rw [(flags_of_caseRel hS).1]
    exact head?_trimWs hb
  · intro d hd
    obtain ⟨b, hb, hS⟩ := getLast?_of_forall₂ caseF hd
    rw [(flags_of_caseRel hS).1]
    exact getLast?_trimWs hb

theorem jsTrimStr_standardize (s : String) :
    jsTrimStr (standardizeVendorName s) = standardizeVendorName s := by
  by_cases h0 : s = ""
  · subst h0
    decide
  · unfold standardizeVendorName
    rw [if_neg h0]
    show String.mk (trimWs (normalizeChars s.data)) = _
    rw [trimWs_normalizeChars]

theorem enhanced_some (s : String) :
    enhancedVendorNormalization (some s) =
      if jsTrimStr s = "" then "Unknown"
      else applyRules (standardizeVendorName (jsTrimStr s)) := rfl

/-- Every right-hand side of the override table is a fixed point of
`enhancedVendorNormalization`. -/
theorem rules_post : ∀ p ∈ normalizationRules, enhancedVendorNormalization (some p.2) = p.2 := by
  decide

/-- Idempotence of `enhancedVendorNormalization` on safe inputs whose result is
nonempty. -/
theorem enhanced_idem_safe {s : String}
    (hs : ∀ c ∈ s.data, safeChar c = true)
    (hne : enhancedVendorNormalization (some s) ≠ "") :
    enhancedVendorNormalization (some (enhancedVendorNormalization (some s))) =
      enhancedVendorNormalization (some s) := by
  by_cases hb : jsTrimStr s = ""
  · have he : enhancedVendorNormalization (some s) = "Unknown" := by
      rw [enhanced_some, if_pos hb]
    rw [he]
    decide
  · have he : enhancedVendorNormalization (some s) =
        applyRules (standardizeVendorName (jsTrimStr s)) := by
      rw [enhanced_some, if_neg hb]
    have hsafe' : ∀ c ∈ (jsTrimStr s).data, safeChar c = true :=
      fun c hc => hs c (mem_trimWs hc)
    rcases hfind : normalizationRules.find?
        (fun p => standardizeVendorName (jsTrimStr s) == p.1) with _ | p
    · have hr : applyRules (standardizeVendorName (jsTrimStr s)) =
          standardizeVendorName (jsTrimStr s) := by
        unfold applyRules
        rw [hfind]
      rw [he, hr] at hne ⊢
      rw [enhanced_some, jsTrimStr_standardize, if_neg hne,
        standardizeVendorName_idem_safe hsafe']
      unfold applyRules
      rw [hfind]
    · have hmem := List.mem_of_find?_eq_some hfind
      have hr : applyRules (standardizeVendorName (jsTrimStr s)) = p.2 := by
        unfold applyRules
        rw [hfind]
      rw [he, hr]
      exact rules_post p hmem

/-! ## Claims C7 and C9 -/

/-- C7 (counterexample): the claim "normalize(normalize(s)) = normalize(s) for
every string s" is false both for the generic algorithm and for the override
composition.  Stripping `"!"` out of `"a ! b"` after whitespace collapse leaves
the double space `"A  B"`, which a second pass collapses to `"A B"`; and the
non-blank input `"."` normalizes to `""`, which the override composition
re-normalizes to `"Unknown"`. -/
theorem claim7_counterexample :
    standardizeVendorName (standardizeVendorName "a ! b") ≠ standardizeVendorName "a ! b" ∧
    enhancedVendorNormalization (some (enhancedVendorNormalization (some "."))) ≠
      enhancedVendorNormalization (some ".") := by
  decide

/-- C7 (amended): `standardizeVendorName` is idempotent on every input all of
whose characters survive the stripping step or are erased before it (letters,
digits, ampersand, hyphen, whitespace, periods, zero-width characters), and the
composition with the override table is additionally idempotent whenever its
result is nonempty. -/
theorem claim7_amended (s : String)
    (hsafe : ∀ c ∈ s.data, safeChar c = true)
    (hne : enhancedVendorNormalization (some s) ≠ "") :
    standardizeVendorName (standardizeVendorName s) = standardizeVendorName s ∧
    enhancedVendorNormalization (some (enhancedVendorNormalization (some s))) =
      enhancedVendorNormalization (some s) :=
  ⟨standardizeVendorName_idem_safe hsafe, enhanced_idem_safe hsafe hne⟩

theorem claim7_witness :
    (∀ c ∈ ("Acme Corp." : String).data, safeChar c = true) ∧
    enhancedVendorNormalization (some "Acme Corp.") ≠ "" ∧
    (standardizeVendorName (standardizeVendorName "Acme Corp.") =
        standardizeVendorName "Acme Corp." ∧
      enhancedVendorNormalization (some (enhancedVendorNormalization (some "Acme Corp."))) =
        enhancedVendorNormalization (some "Acme Corp.")) :=
  ⟨by decide, by decide, claim7_amended "Acme Corp." (by decide) (by decide)⟩

/-- C9 (counterexample): the claim "normalize(s) = \"\" for every s containing
only non-letter/digit characters" is false: `"&"` contains neither letters nor
digits, yet `standardizeVendorName "&"` is `"&"` (the stripping step keeps
ampersands and hyphens). -/
theorem claim9_counterexample :
    (∀ c ∈ ("&" : String).data, c.isAlpha = false ∧ c.isDigit = false) ∧
    standardizeVendorName "&" ≠ "" := by
  decide

/-- C9 (amended): `standardizeVendorName` maps to the empty string every input
containing only ASCII characters (code points below 128, on which the source's
NFKC step is the identity) that are neither letters, digits, ampersands nor
hyphens.  The ASCII restriction is necessary: outside it NFKC itself
manufactures kept alphanumerics (the real program maps U+2122 TRADE MARK SIGN
to "Tm", not ""). -/
theorem claim9_amended (s : String)
    (h : ∀ c ∈ s.data, c.toNat < 128 ∧
      c.isAlpha = false ∧ c.isDigit = false ∧ c ≠ '&' ∧ c ≠ '-') :
    standardizeVendorName s = "" := by
  unfold standardizeVendorName
  by_cases h0 : s = ""
  · rw [if_pos h0]
  · rw [if_neg h0]
    have hall : ∀ c ∈ stripDisallowed (collapseWs (removePeriods
        (removeZeroWidth (nfkc s.data)))), isJsWs c = true := by
      intro c hc
      rw [stripDisallowed, List.mem_filter] at hc
      obtain ⟨hcb, hk⟩ := hc
      rcases mem_collapseGo _ false hcb with hsp | ⟨hmem, hnw⟩
      · rw [hsp]
        decide
      · exfalso
        rw [removePeriods, List.mem_filter] at hmem
        rw [removeZeroWidth, List.mem_filter] at hmem
        have hcs : c ∈ s.data := hmem.1.1
        obtain ⟨_, ha, hd, hamp, hhyp⟩ := h c hcs
        have ha' := (isAlpha_iff_toNat c).not.mp (by simp [ha])
        have hd' := (isDigit_iff_toNat c).not.mp (by simp [hd])
        have hamp' : c.toNat ≠ 38 := toNat_ne_of_ne hamp
        have hhyp' : c.toNat ≠ 45 := toNat_ne_of_ne hhyp
        simp only [keepChar, decide_eq_true_eq] at hk
        have hc32 : c.toNat = 32 := by
          rcases hk with hk | hk | hk | hk | hk | hk <;> omega
        have : c = ' ' := char_eq_of_toNat_eq hc32
        rw [this] at hnw
        simp [isJsWs] at hnw
    show String.mk (titleWords (lowerAll (trimWs (stripDisallowed (collapseWs
      (removePeriods (removeZeroWidth (nfkc s.data)))))))) = ""
    rw [trimWs_eq_nil_of_all_ws hall]
    rfl

theorem claim9_witness :
    (∀ c ∈ (". , !" : String).data, c.toNat < 128 ∧
      c.isAlpha = false ∧ c.isDigit = false ∧ c ≠ '&' ∧ c ≠ '-') ∧
    standardizeVendorName ". , !" = "" :=
  ⟨by decide, claim9_amended ". , !" (by decide)⟩

/-! ## The storage layer (invoiceStorage.ts)

The Firestore collection is modelled as a list of records in insertion order.
Each query the source issues is a call on a `StorageBackend`, whose failure
flags model storage-layer errors raised by the corresponding `getDocs` call
(`dbInit = false` models an uninitialized Firestore handle). -/

/-- The nested `invoice_metadata` section of an extracted payload. -/
structure InvoiceMetadata where
  invoice_number : Option String := none
  invoice_date : Option String := none
deriving DecidableEq, Repr

/-- The nested `financial_summary` section. -/
structure FinancialSummary where
  total_amount : Option Int := none
deriving DecidableEq, Repr

/-- The nested `vendor_information` section. -/
structure VendorInformation where
  company_name : Option String := none
deriving DecidableEq, Repr

/-- The extracted payload, with every section and field optional (the source
reads them through optional chaining). -/
structure ExtractedInvoice where
  invoice_metadata : Option InvoiceMetadata := none
  financial_summary : Option FinancialSummary := none
  vendor_information : Option VendorInformation := none
deriving DecidableEq, Repr

/-- `extractedData.invoice_metadata?.invoice_number`. -/
def ExtractedInvoice.invoiceNumberOf (d : ExtractedInvoice) : Option String :=
  d.invoice_metadata.bind (fun m => m.invoice_number)

/-- `extractedData.invoice_metadata?.invoice_date`. -/
def ExtractedInvoice.invoiceDateOf (d : ExtractedInvoice) : Option String :=
  d.invoice_metadata.bind (fun m => m.invoice_date)

/-- `extractedData.financial_summary?.total_amount`. -/
def ExtractedInvoice.totalAmountOf (d : ExtractedInvoice) : Option Int :=
  d.financial_summary.bind (fun m => m.total_amount)

/-- `extractedData.vendor_information?.company_name`. -/
def ExtractedInvoice.vendorCompanyNameOf (d : ExtractedInvoice) : Option String :=
  d.vendor_information.bind (fun m => m.company_name)

/-- `standardizeVendorName(extractedData.vendor_information?.company_name) || 'Unknown'`. -/
def vendorNameIndexOf (d : ExtractedInvoice) : String :=
  let v := standardizeVendorNameOpt d.vendorCompanyNameOf
  if v = "" then "Unknown" else v

/-- A persisted invoice record (`StoredInvoiceData`). -/
structure StoredInvoiceData where
  id : String
  userId : String
  filename : String
  originalFilename : String
  fileUrl : Option String := none
  fileSize : Option Nat := none
  invoiceNumber : Option String := none
  totalAmount : Option Int := none
  invoiceDate : Option String := none
  vendorName : String
  extractedData : ExtractedInvoice
  createdAt : Nat
  updatedAt : Nat
deriving DecidableEq, Repr

/-- The storage collaborator: the record list plus failure switches for each
kind of lookup the Duplicate Resolver performs. -/
structure StorageBackend where
  store : List StoredInvoiceData
  dbInit : Bool := true
  failExact : Bool := false
  failScan : Bool := false
  failFilename : Bool := false
deriving DecidableEq, Repr

/-- `getDocs` of the exact `(userId, invoiceNumber)` query with `limit(1)`. -/
def queryByInvoiceNumber (b : StorageBackend) (u num : String) :
    Except String (Option StoredInvoiceData) :=
  if b.failExact then Except.error "query failed"
  else Except.ok ((b.store.filter
    (fun r => r.userId == u && r.invoiceNumber == some num)).head?)

/-- `getDocs` of the all-documents-of-this-user query. -/
def queryByUser (b : StorageBackend) (u : String) :
    Except String (List StoredInvoiceData) :=
  if b.failScan then Except.error "query failed"
  else Except.ok (b.store.filter (fun r => r.userId == u))

/-- `getDocs` of the exact `(userId, originalFilename)` query with `limit(1)`. -/
def queryByFilename (b : StorageBackend) (u f : String) :
    Except String (Option StoredInvoiceData) :=
  if b.failFilename then Except.error "query failed"
  else Except.ok ((b.store.filter
    (fun r => r.userId == u && r.originalFilename == f)).head?)

/-- The case-insensitive scan predicate:
`data.invoiceNumber && data.invoiceNumber.toLowerCase().trim() === invoiceNumber.toLowerCase().trim()`. -/
def matchesCI (r : StoredInvoiceData) (num : String) : Bool :=
  match r.invoiceNumber with
  | some t => (!(t == "")) && (jsTrimStr (jsLowerStr t) == jsTrimStr (jsLowerStr num))
  | none => false

/-- The body of `findExistingInvoice` before its `catch`: each `await`
propagates a storage error. -/
def findExistingInvoiceE (b : StorageBackend) (userId filename : String)
    (invoiceNumber : Option String) : Except String (Option StoredInvoiceData) :=
  if b.dbInit = false then Except.error "Firebase Firestore not initialized"
  else
    let fallback : Except String (Option StoredInvoiceData) :=
      queryByFilename b userId filename
    match invoiceNumber with
    | some num =>
      if num ≠ "" ∧ jsTrimStr num ≠ "" then
        match queryByInvoiceNumber b userId (jsTrimStr num) with
        | Except.error e => Except.error e
        | Except.ok (some r) => Except.ok (some r)
        | Except.ok none =>
          match queryByUser b userId with
          | Except.error e => Except.error e
          | Except.ok allDocs =>
            match allDocs.find? (fun r => matchesCI r num) with
            | some r => Except.ok (some r)
            | none => fallback
      else fallback
    | none => fallback

/-- `findExistingInvoice`: the surrounding `try`/`catch` maps every storage
error to `null`. -/
def findExistingInvoice (b : StorageBackend) (userId filename : String)
    (invoiceNumber : Option String) : Option StoredInvoiceData :=
  match findExistingInvoiceE b userId filename invoiceNumber with
  | Except.ok v => v
  | Except.error _ => none

/-- `filename.toLowerCase().replace(/[^a-z0-9]/g, '_')`. -/
def cleanFilename (f : String) : String :=
  String.mk ((lowerAll f.data).map (fun c =>
    if (97 ≤ c.toNat ∧ c.toNat ≤ 122) ∨ (48 ≤ c.toNat ∧ c.toNat ≤ 57) then c else '_'))

/-- `generateDocumentId`: `${userId}_${cleanFilename}_${Date.now()}`; the clock
is passed in explicitly. -/
def generateDocumentId (userId filename : String) (now : Nat) : String :=
  userId ++ "_" ++ cleanFilename filename ++ "_" ++ toString now

/-- `setDoc(docRef, data, { merge: true })` at a document id: overwrite the
record at that id, or create it. -/
def setDoc (store : List StoredInvoiceData) (documentId : String)
    (r : StoredInvoiceData) : List StoredInvoiceData :=
  if store.any (fun x => x.id == documentId) then
    store.map (fun x => if x.id == documentId then r else x)
  else store ++ [r]

/-- Result shape of the persistence calls. -/
structure SaveResult where
  success : Bool
  message : String
  documentId : Option String := none
deriving DecidableEq, Repr

/-- The `invoiceData` object `saveInvoiceData` writes: denormalized index
fields lifted from the payload, the payload itself, and the two timestamps. -/
def mkStoredRecord (userId filename : String) (extractedData : ExtractedInvoice)
    (fileUrl : Option String) (fileSize : Option Nat) (documentId : String)
    (createdAt updatedAt : Nat) : StoredInvoiceData :=
  { id := documentId
    userId := userId
    filename := cleanFilename filename
    originalFilename := filename
    fileUrl := fileUrl
    fileSize := fileSize
    invoiceNumber := extractedData.invoiceNumberOf
    totalAmount := extractedData.totalAmountOf
    invoiceDate := extractedData.invoiceDateOf
    vendorName := vendorNameIndexOf extractedData
    extractedData := extractedData
    createdAt := createdAt
    updatedAt := updatedAt }

/-- `saveInvoiceData` (invoiceStorage.ts lines 42–107): find an existing record
by document number or filename, then create or update in place.  `serverTimestamp()`
and `Date.now()` are modelled by the explicit `now` argument. -/
def saveInvoiceData (b : StorageBackend) (userId filename : String)
    (extractedData : ExtractedInvoice) (fileUrl : Option String)
    (fileSize : Option Nat) (now : Nat) : SaveResult × StorageBackend :=
  let invoiceNumber := extractedData.invoiceNumberOf
  let existingInvoice := findExistingInvoice b userId filename invoiceNumber
  if b.dbInit = false then
    ({ success := false,
       message := "Failed to save invoice data: Firebase Firestore not initialized" }, b)
  else
    let documentId := match existingInvoice with
      | some e => e.id
      | none => generateDocumentId userId filename now
    let invoiceData : StoredInvoiceData :=
      mkStoredRecord userId filename extractedData fileUrl fileSize documentId
        (match existingInvoice with | some e => e.createdAt | none => now) now
    ({ success := true,
       message := match existingInvoice with
         | some _ => "Invoice \"" ++ filename ++ "\" updated successfully in database"
         | none => "Invoice \"" ++ filename ++ "\" saved successfully to database",
       documentId := some documentId },
     { b with store := setDoc b.store documentId invoiceData })

/-- `updateInvoiceData` (invoiceStorage.ts lines 391–433): `updateDoc` patches
the named fields of an existing document and fails when it does not exist. -/
def updateInvoiceData (b : StorageBackend) (documentId userId : String)
    (extractedData : ExtractedInvoice) (now : Nat) : SaveResult × StorageBackend :=
  if b.dbInit = false then
    ({ success := false,
       message := "Failed to update invoice data: Firebase Firestore not initialized" }, b)
  else if b.store.any (fun x => x.id == documentId) then
    let vendorName := vendorNameIndexOf extractedData
    let store2 := b.store.map (fun x =>
      if x.id == documentId then
        { x with
          invoiceNumber := extractedData.invoiceNumberOf
          totalAmount := extractedData.totalAmountOf
          invoiceDate := extractedData.invoiceDateOf
          vendorName := vendorName
          extractedData := extractedData
          updatedAt := now }
      else x)
    ({ success := true,
       message := "Invoice \"" ++ (match extractedData.invoiceNumberOf with
         | some n => n
         | none => "undefined") ++ "\" updated successfully in database",
       documentId := some documentId },
     { b with store := store2 })
  else
    ({ success := false,
       message := "Failed to update invoice data: No document to update" }, b)

/-- The Duplicate Resolver as the claim words it: an exact
`(ownerId, documentNumber)` match on the trimmed supplied number; failing that,
a scan of the owner's records comparing document numbers case-insensitively
after trimming; failing that, or when no document number was supplied, an exact
`(ownerId, originalFilename)` match; otherwise nothing. -/
def findExistingSpec (store : List StoredInvoiceData) (userId filename : String)
    (invoiceNumber : Option String) : Option StoredInvoiceData :=
  let byNumber : Option StoredInvoiceData :=
    match invoiceNumber with
    | some num =>
      if jsTrimStr num ≠ "" then
        match store.find?
            (fun r => r.userId == userId && r.invoiceNumber == some (jsTrimStr num)) with
        | some r => some r
        | none =>
          (store.filter (fun r => r.userId == userId)).find? (fun r =>
            match r.invoiceNumber with
            | some t => jsTrimStr (jsLowerStr t) == jsTrimStr (jsLowerStr num)
            | none => false)
      else none
    | none => none
  match byNumber with
  | some r => some r
  | none =>
    store.find? (fun r => r.userId == userId && r.originalFilename == filename)

/-! ## Supporting lemmas for the storage claims -/

theorem head?_filter {α : Type} (p : α → Bool) :
    ∀ l : List α, (l.filter p).head? = l.find? p
  | [] => rfl
  | c :: rest => by
    by_cases h : p c <;>
      simp [List.filter_cons, List.find?_cons, h, head?_filter p rest]

theorem dropWhile_ws_lower (l : List Char) :
    (l.map jsLower).dropWhile isJsWs = (l.dropWhile isJsWs).map jsLower := by
  induction l with
  | nil => rfl
  | cons c rest ih =>
    rw [List.map_cons, List.dropWhile_cons, List.dropWhile_cons, isJsWs_jsLower]
    by_cases h : isJsWs c = true
    · rw [if_pos h, if_pos h, ih]
    · rw [if_neg h, if_neg h, List.map_cons]

theorem trimWs_lowerAll (l : List Char) : trimWs (lowerAll l) = lowerAll (trimWs l) := by
  unfold trimWs lowerAll
  rw [dropWhile_ws_lower, ← List.map_reverse, dropWhile_ws_lower, ← List.map_reverse]

theorem jsTrimStr_jsLowerStr_ne_empty {s : String} (h : jsTrimStr s ≠ "") :
    jsTrimStr (jsLowerStr s) ≠ "" := by
  intro hcontra
  apply h
  have hdata := congrArg String.data hcontra
  have hX : trimWs (lowerAll s.data) = [] := hdata
  rw [trimWs_lowerAll] at hX
  have hnil : trimWs s.data = [] := List.map_eq_nil_iff.mp hX
  show String.mk (trimWs s.data) = ""
  rw [hnil]

theorem findExistingInvoice_eq_spec (store : List StoredInvoiceData)
    (userId filename : String) (invoiceNumber : Option String) :
    findExistingInvoice { store := store } userId filename invoiceNumber =
      findExistingSpec store userId filename invoiceNumber := by
  unfold findExistingInvoice
  rcases invoiceNumber with _ | num
  · simp [findExistingInvoiceE, findExistingSpec, queryByFilename, head?_filter]
  · by_cases htr : jsTrimStr num = ""
    · have hcond : ¬(num ≠ "" ∧ jsTrimStr num ≠ "") := by simp [htr]
      simp [findExistingInvoiceE, findExistingSpec, queryByFilename, head?_filter,
        htr, hcond]
    · have hne : num ≠ "" := by
        intro h
        apply htr
        rw [h]
        rfl
      have hpred : (fun r => matchesCI r num) = (fun r : StoredInvoiceData =>
          match r.invoiceNumber with
          | some t => jsTrimStr (jsLowerStr t) == jsTrimStr (jsLowerStr num)
          | none => false) := by
        funext r
        unfold matchesCI
        cases hrn : r.invoiceNumber with
        | none => rfl
        | some t =>
          by_cases ht : t = ""
          · subst ht
            have h0 : jsTrimStr (jsLowerStr "") = "" := rfl
            have hY : (("" : String) == jsTrimStr (jsLowerStr num)) = false :=
              beq_eq_false_iff_ne.mpr (Ne.symm (jsTrimStr_jsLowerStr_ne_empty htr))
            simp [h0, hY]
          · simp [ht]
      simp only [findExistingInvoiceE, findExistingSpec, queryByInvoiceNumber,
        queryByUser, queryByFilename, head?_filter, hpred]
      simp only [if_pos (And.intro hne htr), if_pos htr]
      simp only [show (({ store := store } : StorageBackend).dbInit = false) = False by simp,
        if_false]
      cases hE : store.find?
          (fun r => r.userId == userId && r.invoiceNumber == some (jsTrimStr num)) with
      | some r => simp [hE]
      | none =>
        simp only [hE]
        cases hS : (store.filter (fun r => r.userId == userId)).find?
            (fun r : StoredInvoiceData =>
              match r.invoiceNumber with
              | some t => jsTrimStr (jsLowerStr t) == jsTrimStr (jsLowerStr num)
              | none => false) with
        | some r => simp [hS]
        | none => simp [hS]

/-- C4: on a failure-free storage backend, `findExistingInvoice` coincides with
the priority cascade the claim describes — exact `(ownerId, documentNumber)`
match on the trimmed supplied number first, then the case-insensitive trimmed
scan of the owner's records, then the exact `(ownerId, originalFilename)`
match, otherwise nothing. -/
theorem claim4_resolver_priority (store : List StoredInvoiceData)
    (userId filename : String) (invoiceNumber : Option String) :
    findExistingInvoice { store := store } userId filename invoiceNumber =
      findExistingSpec store userId filename invoiceNumber :=
  findExistingInvoice_eq_spec store userId filename invoiceNumber

/-- C6: the Duplicate Resolver swallows storage errors.  Whenever the body of
`findExistingInvoice` raises a storage error, the `catch` returns `null`
("no match found"); in particular, on a backend on which every lookup raises,
the resolver always answers `null`. -/
theorem claim6_lookup_errors_swallowed :
    (∀ (b : StorageBackend) (userId filename : String) (invoiceNumber : Option String)
       (e : String),
        findExistingInvoiceE b userId filename invoiceNumber = Except.error e →
        findExistingInvoice b userId filename invoiceNumber = none) ∧
    (∀ (store : List StoredInvoiceData) (userId filename : String)
       (invoiceNumber : Option String),
        findExistingInvoice
          { store := store, dbInit := true, failExact := true, failScan := true,
            failFilename := true } userId filename invoiceNumber = none) := by
  constructor
  · intro b userId filename invoiceNumber e h
    unfold findExistingInvoice
    rw [h]
  · intro store userId filename invoiceNumber
    unfold findExistingInvoice findExistingInvoiceE
    rcases invoiceNumber with _ | num
    · simp [queryByFilename]
    · by_cases hcond : num ≠ "" ∧ jsTrimStr num ≠ "" <;>
        simp [hcond, queryByInvoiceNumber, queryByFilename]

theorem claim6_witness :
    findExistingInvoiceE
        { store := [], dbInit := true, failExact := true, failScan := true,
          failFilename := true } "u1" "a.pdf" none = Except.error "query failed" ∧
    findExistingInvoice
        { store := [], dbInit := true, failExact := true, failScan := true,
          failFilename := true } "u1" "a.pdf" none = none :=
  ⟨rfl,
   claim6_lookup_errors_swallowed.1 _ "u1" "a.pdf" none "query failed" rfl⟩

theorem mem_setDoc {store : List StoredInvoiceData} {documentId : String}
    {x r : StoredInvoiceData} (h : r ∈ setDoc store documentId x) :
    r ∈ store ∨ r = x := by
  unfold setDoc at h
  by_cases hany : store.any (fun y => y.id == documentId) = true
  · rw [if_pos hany] at h
    obtain ⟨y, hy, hyr⟩ := List.mem_map.mp h
    by_cases hid : (y.id == documentId) = true
    · rw [if_pos hid] at hyr
      exact Or.inr hyr.symm
    · rw [if_neg hid] at hyr
      exact Or.inl (hyr ▸ hy)
  · rw [if_neg hany, List.mem_append] at h
    rcases h with h | h
    · exact Or.inl h
    · exact Or.inr (List.mem_singleton.mp h)

/-- C5 (counterexample): the claim that the stored vendor-name index field
always equals the normalizer's output fails when the extracted vendor name is
absent (or normalizes to the empty string): the coordinator stores the default
`"Unknown"`, while the normalizer yields `""`. -/
theorem claim5_counterexample :
    ((saveInvoiceData { store := [] } "u1" "a.pdf" {} none none 0).2.store.map
        (fun r => r.vendorName) = ["Unknown"]) ∧
    standardizeVendorNameOpt (ExtractedInvoice.vendorCompanyNameOf {}) = "" ∧
    ("Unknown" : String) ≠ "" := by
  decide

/-- C5 (amended): every record the Persistence Coordinator writes (by
`saveInvoiceData` or `updateInvoiceData`) carries as vendor-name index field
the Identity Normalizer's output when that output is nonempty, and the fixed
default `"Unknown"` otherwise — never the raw OCR string. -/
theorem claim5_amended :
    (∀ (b : StorageBackend) (userId filename : String) (d : ExtractedInvoice)
       (fileUrl : Option String) (fileSize : Option Nat) (now : Nat)
       (r : StoredInvoiceData),
        r ∈ (saveInvoiceData b userId filename d fileUrl fileSize now).2.store →
        r ∈ b.store ∨ r.vendorName = vendorNameIndexOf d) ∧
    (∀ (b : StorageBackend) (documentId userId : String) (d : ExtractedInvoice)
       (now : Nat) (r : StoredInvoiceData),
        r ∈ (updateInvoiceData b documentId userId d now).2.store →
        r ∈ b.store ∨ r.vendorName = vendorNameIndexOf d) := by
  constructor
  · intro b userId filename d fileUrl fileSize now r hr
    unfold saveInvoiceData at hr
    by_cases hdb : b.dbInit = false
    · rw [if_pos hdb] at hr
      exact Or.inl hr
    · rw [if_neg hdb] at hr
      rcases mem_setDoc hr with h | h
      · exact Or.inl h
      · refine Or.inr ?_
        rw [h]
        rfl
  · intro b documentId userId d now r hr
    unfold updateInvoiceData at hr
    by_cases hdb : b.dbInit = false
    · rw [if_pos hdb] at hr
      exact Or.inl hr
    · rw [if_neg hdb] at hr
      by_cases hany : b.store.any (fun x => x.id == documentId) = true
      · rw [if_pos hany] at hr
        obtain ⟨y, hy, hyr⟩ := List.mem_map.mp hr
        by_cases hid : (y.id == documentId) = true
        · rw [if_pos hid] at hyr
          exact Or.inr (by rw [← hyr])
        · rw [if_neg hid] at hyr
          exact Or.inl (hyr ▸ hy)
      · rw [if_neg hany] at hr
        exact Or.inl hr

theorem claim5_witness :
    ({ id := "u1_a_pdf_0", userId := "u1", filename := "a_pdf",
       originalFilename := "a.pdf", vendorName := "Unknown", extractedData := {},
       createdAt := 0, updatedAt := 0 } : StoredInvoiceData) ∈
      (saveInvoiceData { store := [] } "u1" "a.pdf" {} none none 0).2.store ∧
    (({ id := "u1_a_pdf_0", userId := "u1", filename := "a_pdf",
        originalFilename := "a.pdf", vendorName := "Unknown", extractedData := {},
        createdAt := 0, updatedAt := 0 } : StoredInvoiceData) ∈
        ({ store := [] } : StorageBackend).store ∨
      ({ id := "u1_a_pdf_0", userId := "u1", filename := "a_pdf",
         originalFilename := "a.pdf", vendorName := "Unknown", extractedData := {},
         createdAt := 0, updatedAt := 0 } : StoredInvoiceData).vendorName =
        vendorNameIndexOf {}) :=
  ⟨by decide, claim5_amended.1 { store := [] } "u1" "a.pdf" {} none none 0 _ (by decide)⟩

/-! ## Committing twice (claim C3) -/

theorem saveInvoiceData_create {b : StorageBackend} {userId filename : String}
    {d : ExtractedInvoice} (fileUrl : Option String) (fileSize : Option Nat) (now : Nat)
    (hdb : b.dbInit = true)
    (hfind : findExistingInvoice b userId filename d.invoiceNumberOf = none) :
    saveInvoiceData b userId filename d fileUrl fileSize now =
      ({ success := true,
         message := "Invoice \"" ++ filename ++ "\" saved successfully to database",
         documentId := some (generateDocumentId userId filename now) },
       { b with store := setDoc b.store (generateDocumentId userId filename now)
                           (mkStoredRecord userId filename d fileUrl fileSize
                             (generateDocumentId userId filename now) now now) }) := by
  unfold saveInvoiceData
  simp [hfind, hdb]

theorem saveInvoiceData_update {b : StorageBackend} {userId filename : String}
    {d : ExtractedInvoice} (fileUrl : Option String) (fileSize : Option Nat) (now : Nat)
    {e : StoredInvoiceData}
    (hdb : b.dbInit = true)
    (hfind : findExistingInvoice b userId filename d.invoiceNumberOf = some e) :
    saveInvoiceData b userId filename d fileUrl fileSize now =
      ({ success := true,
         message := "Invoice \"" ++ filename ++ "\" updated successfully in database",
         documentId := some e.id },
       { b with store := setDoc b.store e.id
                           (mkStoredRecord userId filename d fileUrl fileSize e.id
                             e.createdAt now) }) := by
  unfold saveInvoiceData
  simp [hfind, hdb]

theorem findExistingInvoice_empty (userId filename : String)
    (invoiceNumber : Option String) :
    findExistingInvoice { store := [] } userId filename invoiceNumber = none := by
  rw [findExistingInvoice_eq_spec]
  unfold findExistingSpec
  rcases invoiceNumber with _ | num
  · simp
  · split <;> simp

/-- C3: committing the same invoice (same owner and non-blank document number)
twice onto an empty store reports a create then an update, and the store ends
with exactly one record whose `createdAt` is the first commit's timestamp,
whose `updatedAt` is the second commit's, and whose denormalized index fields
and payload come from the second commit. -/
theorem claim3_commit_twice (userId f1 f2 n : String) (d1 d2 : ExtractedInvoice)
    (h1 : d1.invoiceNumberOf = some n) (h2 : d2.invoiceNumberOf = some n)
    (hn : jsTrimStr n ≠ "") (t1 t2 : Nat) :
    (saveInvoiceData { store := [] } userId f1 d1 none none t1).1.success = true ∧
    (saveInvoiceData { store := [] } userId f1 d1 none none t1).1.message =
      "Invoice \"" ++ f1 ++ "\" saved successfully to database" ∧
    (saveInvoiceData (saveInvoiceData { store := [] } userId f1 d1 none none t1).2
        userId f2 d2 none none t2).1.success = true ∧
    (saveInvoiceData (saveInvoiceData { store := [] } userId f1 d1 none none t1).2
        userId f2 d2 none none t2).1.message =
      "Invoice \"" ++ f2 ++ "\" updated successfully in database" ∧
    (saveInvoiceData (saveInvoiceData { store := [] } userId f1 d1 none none t1).2
        userId f2 d2 none none t2).2.store =
      [{ id := generateDocumentId userId f1 t1
         userId := userId
         filename := cleanFilename f2
         originalFilename := f2
         fileUrl := none
         fileSize := none
         invoiceNumber := some n
         totalAmount := d2.totalAmountOf
         invoiceDate := d2.invoiceDateOf
         vendorName := vendorNameIndexOf d2
         extractedData := d2
         createdAt := t1
         updatedAt := t2 }] := by
  have hfind1 : findExistingInvoice { store := [] } userId f1 d1.invoiceNumberOf = none :=
    findExistingInvoice_empty userId f1 d1.invoiceNumberOf
  have hs1 := saveInvoiceData_create none none t1 rfl hfind1
  set gid := generateDocumentId userId f1 t1 with hgid
  set rec1 := mkStoredRecord userId f1 d1 none none gid t1 t1 with hrec1
  have hstore1 : (saveInvoiceData { store := [] } userId f1 d1 none none t1).2 =
      { store := [rec1] } := by
    rw [hs1]
    simp [setDoc]
  have hr1num : rec1.invoiceNumber = some n := by
    rw [hrec1]
    exact h1
  have hr1uid : rec1.userId = userId := rfl
  have hfind2 : findExistingInvoice { store := [rec1] } userId f2 d2.invoiceNumberOf =
      some rec1 := by
    rw [h2, findExistingInvoice_eq_spec]
    simp only [findExistingSpec]
    rw [if_pos hn]
    by_cases heq : n = jsTrimStr n
    · have hp : (rec1.userId == userId && rec1.invoiceNumber == some (jsTrimStr n)) =
          true := by
        rw [hr1uid, hr1num, ← heq]
        simp
      simp [List.find?_cons, hp]
    · have hp : (rec1.userId == userId && rec1.invoiceNumber == some (jsTrimStr n)) =
          false := by
        rw [hr1uid, hr1num]
        simp only [beq_self_eq_true, Bool.true_and, beq_eq_false_iff_ne, ne_eq,
          Option.some.injEq]
        exact heq
      have hscan : (match rec1.invoiceNumber with
          | some t => jsTrimStr (jsLowerStr t) == jsTrimStr (jsLowerStr n)
          | none => false) = true := by
        rw [hr1num]
        simp
      simp [List.find?_cons, hp, List.filter_cons, hr1uid, hscan]
      cases hb : rec1.invoiceNumber == some (jsTrimStr n) <;> rfl
  have hs2 := saveInvoiceData_update none none t2 rfl hfind2
  rw [hstore1, hs2, hs1]
  refine ⟨rfl, rfl, rfl, rfl, ?_⟩
  show setDoc [rec1] rec1.id
      (mkStoredRecord userId f2 d2 none none rec1.id rec1.createdAt t2) = _
  simp [setDoc, hrec1, mkStoredRecord, h2]

/-- A minimal extracted payload carrying only a document number. -/
def sampleExtracted1 : ExtractedInvoice :=
  { invoice_metadata := some { invoice_number := some "INV-100" } }

/-- A fuller extracted payload with the same document number. -/
def sampleExtracted2 : ExtractedInvoice :=
  { invoice_metadata := some { invoice_number := some "INV-100",
                               invoice_date := some "2024-02-02" }
    financial_summary := some { total_amount := some 42 }
    vendor_information := some { company_name := some "Acme Corp" } }

theorem claim3_witness :
    (saveInvoiceData { store := [] } "u1" "inv.pdf" sampleExtracted1 none none 100).1.success
        = true ∧
    (saveInvoiceData { store := [] } "u1" "inv.pdf" sampleExtracted1 none none 100).1.message =
      "Invoice \"" ++ "inv.pdf" ++ "\" saved successfully to database" ∧
    (saveInvoiceData
        (saveInvoiceData { store := [] } "u1" "inv.pdf" sampleExtracted1 none none 100).2
        "u1" "inv.pdf" sampleExtracted2 none none 200).1.success = true ∧
    (saveInvoiceData
        (saveInvoiceData { store := [] } "u1" "inv.pdf" sampleExtracted1 none none 100).2
        "u1" "inv.pdf" sampleExtracted2 none none 200).1.message =
      "Invoice \"" ++ "inv.pdf" ++ "\" updated successfully in database" ∧
    (saveInvoiceData
        (saveInvoiceData { store := [] } "u1" "inv.pdf" sampleExtracted1 none none 100).2
        "u1" "inv.pdf" sampleExtracted2 none none 200).2.store =
      [{ id := generateDocumentId "u1" "inv.pdf" 100
         userId := "u1"
         filename := cleanFilename "inv.pdf"
         originalFilename := "inv.pdf"
         fileUrl := none
         fileSize := none
         invoiceNumber := some "INV-100"
         totalAmount := sampleExtracted2.totalAmountOf
         invoiceDate := sampleExtracted2.invoiceDateOf
         vendorName := vendorNameIndexOf sampleExtracted2
         extractedData := sampleExtracted2
         createdAt := 100
         updatedAt := 200 }] :=
  claim3_commit_twice "u1" "inv.pdf" "inv.pdf" "INV-100" sampleExtracted1 sampleExtracted2
    rfl rfl (by decide) 100 200

/-! ## The Batch Orchestrator (process-invoice/route.ts, batch variant)

One outbound `fetch` of a batch is modelled by a `FetchResult`: either the
promise rejected (`thrown`, with JavaScript's `AbortError` distinguished by the
`isAbort` flag), or a response arrived whose `text()` / `json()` bodies may
themselves reject.  The network is a function from the index of the scheduled
batch call to its `FetchResult`.  Network calls performed by a route handler
are logged so that "no network call was issued" is a statement of the model. -/

/-- An uploaded file: name, content-type, size in bytes. -/
structure UploadFile where
  name : String
  type : String
  size : Nat
deriving DecidableEq, Repr

/-- `BatchResult` of route.ts: one file's outcome.  `processingTime` is absent
exactly when the wave loop synthesized the outcome for a rejected batch
promise. -/
structure BatchResult where
  filename : String
  success : Bool
  data : Option String := none
  error : Option String := none
  processingTime : Option Nat := none
deriving DecidableEq, Repr

/-- A thrown JavaScript error; `isAbort` models `error.name === 'AbortError'`. -/
structure JsError where
  isAbort : Bool
  msg : String
deriving DecidableEq, Repr

/-- One element of the backend's `results` array, every field optional. -/
structure FileResultJson where
  filename : Option String := none
  success : Option Bool := none
  data : Option String := none
  error : Option String := none
  error_details : Option String := none
  processing_time_seconds : Option Nat := none
deriving DecidableEq, Repr

/-- The parsed JSON body of `/parse-multiple-invoices`. -/
structure ParseResponseJson where
  success : Bool
  results : Option (List FileResultJson)
deriving DecidableEq, Repr

/-- An HTTP response: status line plus the possibly-rejecting body readers. -/
structure HttpResponse where
  ok : Bool
  status : Nat
  textR : Except JsError String
  jsonR : Except JsError ParseResponseJson

/-- The outcome of one outbound `fetch` (with its body reads). -/
inductive FetchResult where
  | thrown (e : JsError)
  | resp (r : HttpResponse)

/-- JavaScript `try`/`catch` over our error monad. -/
def tryCatchE {α : Type} (x : Except JsError α) (h : JsError → Except JsError α) :
    Except JsError α :=
  match x with
  | Except.ok a => Except.ok a
  | Except.error e => h e

def timeoutOutcome (f : UploadFile) : BatchResult :=
  { filename := f.name, success := false, error := some "Request timeout",
    processingTime := some 0 }

def errorOutcome (msg : String) (f : UploadFile) : BatchResult :=
  { filename := f.name, success := false, error := some msg, processingTime := some 0 }

def httpErrorOutcome (status : Nat) (text : String) (f : UploadFile) : BatchResult :=
  errorOutcome ("HTTP " ++ toString status ++ ": " ++ text) f

def unexpectedFormatOutcome (f : UploadFile) : BatchResult :=
  errorOutcome "Unexpected response format from backend" f

/-- The inner `catch` of `processBatch`: a timeout-shaped error yields
"Request timeout" outcomes, any other thrown error yields its message. -/
def catchOutcomes (files : List UploadFile) (e : JsError) : List BatchResult :=
  if e.isAbort then files.map timeoutOutcome else files.map (errorOutcome e.msg)

/-- The per-file mapping of a backend result entry
(`result.results.forEach(...)` in `processBatch`). -/
def mapFileResult (fr : FileResultJson) : BatchResult :=
  { filename := match fr.filename with
      | some s => if s = "" then "unknown" else s
      | none => "unknown"
    success := match fr.success with
      | some b => b
      | none => false
    data := fr.data
    error := match fr.error_details with
      | some s => if s = "" then fr.error else some s
      | none => fr.error
    processingTime := some (match fr.processing_time_seconds with
      | some v => if v ≠ 0 then v * 1000 else 0
      | none => 0) }

/-- The body of `processBatch`'s inner `try`: `fetch`, status check with
`text()`, then `json()` and the shape check `result.success && result.results`. -/
def fetchAndParse (files : List UploadFile) (net : FetchResult) :
    Except JsError (List BatchResult) :=
  match net with
  | FetchResult.thrown e => Except.error e
  | FetchResult.resp r =>
    if r.ok = false then
      match r.textR with
      | Except.error e => Except.error e
      | Except.ok errorText => Except.ok (files.map (httpErrorOutcome r.status errorText))
    else
      match r.jsonR with
      | Except.error e => Except.error e
      | Except.ok body =>
        if body.success = true ∧ body.results.isSome then
          Except.ok ((body.results.getD []).map mapFileResult)
        else
          Except.ok (files.map unexpectedFormatOutcome)

/-- `processBatch` (route.ts lines 412–521): the inner `try`/`catch` around the
network interaction, wrapped in the outer `try`/`catch`. -/
def processBatchE (files : List UploadFile) (net : FetchResult) :
    Except JsError (List BatchResult) :=
  tryCatchE
    (tryCatchE (fetchAndParse files net) (fun e => Except.ok (catchOutcomes files e)))
    (fun e => Except.ok (files.map (errorOutcome e.msg)))

/-- The value of the (always fulfilled) `processBatch` promise. -/
def processBatchRun (files : List UploadFile) (net : FetchResult) : List BatchResult :=
  match processBatchE files net with
  | Except.ok rs => rs
  | Except.error _ => []

/-- Did the backend interaction end in one of the error cases (thrown error or
timeout, non-2xx status, body-read failure, or unexpected response shape)? -/
def errorCaseB (net : FetchResult) : Bool :=
  match net with
  | FetchResult.thrown _ => true
  | FetchResult.resp r =>
    if r.ok = false then true
    else match r.jsonR with
      | Except.error _ => true
      | Except.ok body => !(body.success && body.results.isSome)

/-- One entry of `Promise.allSettled` as collected by the wave loop: a
fulfilled batch contributes its outcomes, a rejected one synthesizes a
batch-failure outcome per file. -/
def settleAt (net : Nat → FetchResult) (i : Nat) (b : List UploadFile) :
    List BatchResult :=
  match processBatchE b (net i) with
  | Except.ok rs => rs
  | Except.error e => b.map (fun f =>
      { filename := f.name, success := false,
        error := some ("Batch processing failed: " ++ e.msg) })

/-- Settle a row of batches in order, numbering the calls from `i`. -/
def settleRow (net : Nat → FetchResult) : Nat → List (List UploadFile) → List BatchResult
  | _, [] => []
  | i, b :: rest => settleAt net i b ++ settleRow net (i + 1) rest

/-- Worker for the batch-building loop
(`for (i = 0; i < files.length; i += BATCH_SIZE) batches.push(slice(i, i + BATCH_SIZE))`),
fuelled by the list length so that it computes by structural recursion. -/
def chunksGo {α : Type} (B : Nat) : Nat → List α → List (List α)
  | 0, _ => []
  | _ + 1, [] => []
  | fuel + 1, x :: xs => (x :: xs).take B :: chunksGo B fuel ((x :: xs).drop B)

/-- Partition a list into consecutive batches of size `B` (last one short). -/
def chunksOf {α : Type} (B : Nat) (l : List α) : List (List α) :=
  chunksGo B l.length l

/-- Worker for the wave loop (`for (batchIndex = 0; ...; batchIndex += MAX_CONCURRENT_BATCHES)`):
settle up to `C` batches concurrently, collect their outcomes in schedule
order, then continue with the next wave. -/
def waveLoopGo (C : Nat) (net : Nat → FetchResult) :
    Nat → Nat → List (List UploadFile) → List BatchResult
  | 0, _, _ => []
  | _ + 1, _, [] => []
  | fuel + 1, i, b :: rest =>
    settleRow net i ((b :: rest).take C) ++
      waveLoopGo C net fuel (i + ((b :: rest).take C).length) ((b :: rest).drop C)

/-- The wave loop over a batch list, numbering batch calls from `i`. -/
def waveLoop (C : Nat) (net : Nat → FetchResult) (i : Nat)
    (batches : List (List UploadFile)) : List BatchResult :=
  waveLoopGo C net batches.length i batches

/-- Partition into batches of `B` and run the wave loop with concurrency `C`. -/
def orchestrate (B C : Nat) (files : List UploadFile) (net : Nat → FetchResult) :
    List BatchResult :=
  waveLoop C net 0 (chunksOf B files)

/-- `BATCH_SIZE` of route.ts. -/
def BATCH_SIZE : Nat := 3

/-- `MAX_CONCURRENT_BATCHES` of route.ts. -/
def MAX_CONCURRENT_BATCHES : Nat := 2

/-- The 5 MiB size cap (`5 * 1024 * 1024`). -/
def maxFileSize : Nat := 5 * 1024 * 1024

/-- The aggregate statistics block of the final report.  The source also
reports a floating-point `averageProcessingTime`; floats are outside this
model. -/
structure BatchStatistics where
  totalFiles : Nat
  successfulFiles : Nat
  failedFiles : Nat
  totalProcessingTime : Nat
  batchesProcessed : Nat
  batchSize : Nat
  concurrentBatches : Nat
deriving DecidableEq, Repr

/-- The response of the batch route handler. -/
inductive PostResponse where
  | noFiles
  | invalidFileType
  | oversizeFile (name : String)
  | notConfigured
  | healthNotOk (status : Nat)
  | healthUnreachable (msg : String)
  | completed (results : List BatchResult) (stats : BatchStatistics)
deriving DecidableEq, Repr

/-- A network call issued by a route handler. -/
inductive NetCall where
  | health
  | parseMultiple (filenames : List String)
deriving DecidableEq, Repr

/-- Outcome of the health probe. -/
inductive HealthOutcome where
  | ok
  | badStatus (status : Nat)
  | unreachable (msg : String)
deriving DecidableEq, Repr

/-- The environment of the batch route: configuration, health probe outcome,
and the network's response to each scheduled batch call. -/
structure BatchEnv where
  backendUrl : Option String
  health : HealthOutcome
  net : Nat → FetchResult

/-- The validation loop: the first file with wrong content-type or oversize. -/
def firstInvalid (files : List UploadFile) : Option UploadFile :=
  files.find? (fun f => !(f.type == "application/pdf") || decide (maxFileSize < f.size))

/-- The validation error of the first offending file, if any (per file, the
content-type is checked before the size). -/
def validationError (files : List UploadFile) : Option PostResponse :=
  match firstInvalid files with
  | some f =>
    some (if f.type ≠ "application/pdf" then PostResponse.invalidFileType
          else PostResponse.oversizeFile f.name)
  | none => none

/-- The statistics computed at the end of the handler. -/
def mkStats (files : List UploadFile) (batches : List (List UploadFile))
    (results : List BatchResult) : BatchStatistics :=
  { totalFiles := files.length
    successfulFiles := (results.filter (fun r => r.success)).length
    failedFiles := (results.filter (fun r => !r.success)).length
    totalProcessingTime := (results.map (fun r => r.processingTime.getD 0)).sum
    batchesProcessed := batches.length
    batchSize := BATCH_SIZE
    concurrentBatches := MAX_CONCURRENT_BATCHES }

/-- The batch route `POST` handler (route.ts lines 249–410): empty check,
validation, configuration check, health probe, then the batch/wave machinery.
The second component logs the network calls performed. -/
def processInvoicesPOST (env : BatchEnv) (files : List UploadFile) :
    PostResponse × List NetCall :=
  if files = [] then (PostResponse.noFiles, [])
  else match validationError files with
  | some e => (e, [])
  | none =>
    match env.backendUrl with
    | none => (PostResponse.notConfigured, [])
    | some _ =>
      match env.health with
      | HealthOutcome.badStatus s => (PostResponse.healthNotOk s, [NetCall.health])
      | HealthOutcome.unreachable m => (PostResponse.healthUnreachable m, [NetCall.health])
      | HealthOutcome.ok =>
        let batches := chunksOf BATCH_SIZE files
        let results := waveLoop MAX_CONCURRENT_BATCHES env.net 0 batches
        (PostResponse.completed results (mkStats files batches results),
         NetCall.health :: batches.map (fun b => NetCall.parseMultiple (b.map (fun f => f.name))))

/-- The final report carried by a `completed` response. -/
def resultsOf : PostResponse → Option (List BatchResult)
  | PostResponse.completed rs _ => some rs
  | _ => none

/-! ## The single-call multi-invoice route (process-multiple-invoices/route.ts) -/

/-- The response of the multi-invoice route handler. -/
inductive MultiResponse where
  | noFiles
  | invalidFileType
  | oversizeFile (name : String)
  | notConfigured
  | healthNotOk
  | healthUnreachable
  | backendError (status : Nat) (text : String)
  | completed (payload : String)
  | serverError (msg : String)
deriving DecidableEq, Repr

/-- The single outbound parse call of the multi-invoice route. -/
inductive MultiParseOutcome where
  | thrown (msg : String)
  | resp (ok : Bool) (status : Nat) (text : String) (payload : String)
deriving DecidableEq, Repr

/-- Environment of the multi-invoice route. -/
structure MultiEnv where
  backendUrl : Option String
  health : HealthOutcome
  parse : MultiParseOutcome

/-- The multi-invoice route `POST` handler (process-multiple-invoices/route.ts):
identical validation, then one health probe and one backend call. -/
def processMultiplePOST (env : MultiEnv) (files : List UploadFile) :
    MultiResponse × List NetCall :=
  if files = [] then (MultiResponse.noFiles, [])
  else match firstInvalid files with
  | some f =>
    (if f.type ≠ "application/pdf" then MultiResponse.invalidFileType
     else MultiResponse.oversizeFile f.name, [])
  | none =>
    match env.backendUrl with
    | none => (MultiResponse.notConfigured, [])
    | some _ =>
      match env.health with
      | HealthOutcome.badStatus _ => (MultiResponse.healthNotOk, [NetCall.health])
      | HealthOutcome.unreachable _ => (MultiResponse.healthUnreachable, [NetCall.health])
      | HealthOutcome.ok =>
        let calls := [NetCall.health,
          NetCall.parseMultiple (files.map (fun f => f.name))]
        match env.parse with
        | MultiParseOutcome.thrown m => (MultiResponse.serverError m, calls)
        | MultiParseOutcome.resp ok status text payload =>
          if ok then (MultiResponse.completed payload, calls)
          else (MultiResponse.backendError status text, calls)

/-! ## Orchestrator lemmas -/

theorem processBatchE_isOk (files : List UploadFile) (net : FetchResult) :
    ∃ rs, processBatchE files net = Except.ok rs := by
  unfold processBatchE tryCatchE
  cases h : fetchAndParse files net with
  | ok rs => exact ⟨rs, rfl⟩
  | error e => exact ⟨catchOutcomes files e, rfl⟩

theorem processBatchE_eq_run (files : List UploadFile) (net : FetchResult) :
    processBatchE files net = Except.ok (processBatchRun files net) := by
  obtain ⟨rs, h⟩ := processBatchE_isOk files net
  unfold processBatchRun
  rw [h]

/-- The wave loop's rejected-promise branch is never taken. -/
theorem settleAt_eq_run (net : Nat → FetchResult) (i : Nat) (b : List UploadFile) :
    settleAt net i b = processBatchRun b (net i) := by
  unfold settleAt
  rw [processBatchE_eq_run]

/-- In every error case, `processBatch` yields exactly one outcome per file of
the batch, in batch order, carrying the file's own name. -/
theorem processBatchRun_names {files : List UploadFile} {net : FetchResult}
    (h : errorCaseB net = true) :
    (processBatchRun files net).map (fun r => r.filename) =
      files.map (fun f => f.name) := by
  cases net with
  | thrown e =>
    unfold processBatchRun processBatchE tryCatchE fetchAndParse catchOutcomes
    by_cases ha : e.isAbort = true <;>
      simp [ha, timeoutOutcome, errorOutcome, List.map_map, Function.comp]
  | resp r =>
    unfold processBatchRun processBatchE tryCatchE fetchAndParse
    unfold errorCaseB at h
    by_cases hok : r.ok = false
    · cases htr : r.textR with
      | ok t =>
        simp [hok, htr, httpErrorOutcome, errorOutcome, List.map_map, Function.comp]
      | error e =>
        by_cases ha : e.isAbort = true <;>
          simp [hok, htr, ha, catchOutcomes, timeoutOutcome, errorOutcome,
            List.map_map, Function.comp]
    · simp only [hok, if_false] at h ⊢
      cases hj : r.jsonR with
      | error e =>
        by_cases ha : e.isAbort = true <;>
          simp [hok, hj, ha, catchOutcomes, timeoutOutcome, errorOutcome,
            List.map_map, Function.comp]
      | ok body =>
        rw [hj] at h
        simp only [Bool.not_eq_true'] at h
        have hcond : ¬(body.success = true ∧ body.results.isSome = true) := by
          intro hc
          rw [hc.1, hc.2] at h
          cases h
        simp [hok, hj, hcond, unexpectedFormatOutcome, errorOutcome,
          List.map_map, Function.comp]

theorem settleRow_append (net : Nat → FetchResult) :
    ∀ (xs ys : List (List UploadFile)) (i : Nat),
      settleRow net i (xs ++ ys) = settleRow net i xs ++ settleRow net (i + xs.length) ys
  | [], ys, i => by simp [settleRow]
  | x :: xs, ys, i => by
    show settleAt net i x ++ settleRow net (i + 1) (xs ++ ys) =
      settleAt net i x ++ settleRow net (i + 1) xs ++
        settleRow net (i + (xs.length + 1)) ys
    rw [settleRow_append net xs ys (i + 1), List.append_assoc,
      show i + 1 + xs.length = i + (xs.length + 1) by omega]

theorem settleRow_congr {net net' : Nat → FetchResult} :
    ∀ (batches : List (List UploadFile)) (i : Nat),
      (∀ j, j < batches.length → net (i + j) = net' (i + j)) →
      settleRow net i batches = settleRow net' i batches
  | [], _, _ => rfl
  | b :: rest, i, h => by
    have h0 : net i = net' i := by simpa using h 0 (by simp)
    have htail : settleRow net (i + 1) rest = settleRow net' (i + 1) rest := by
      refine settleRow_congr rest (i + 1) ?_
      intro j hj
      have hs := h (j + 1) (by simpa using Nat.succ_lt_succ hj)
      rwa [show i + (j + 1) = i + 1 + j by omega] at hs
    show settleAt net i b ++ settleRow net (i + 1) rest =
      settleAt net' i b ++ settleRow net' (i + 1) rest
    unfold settleAt
    rw [h0, htail]

theorem waveLoopGo_eq_settleRow {C : Nat} (hC : 0 < C) (net : Nat → FetchResult) :
    ∀ (fuel : Nat) (batches : List (List UploadFile)) (i : Nat),
      batches.length ≤ fuel →
      waveLoopGo C net fuel i batches = settleRow net i batches
  | 0, batches, i, hle => by
    have : batches = [] := List.eq_nil_of_length_eq_zero (Nat.le_zero.mp hle)
    subst this
    rfl
  | fuel + 1, [], _, _ => rfl
  | fuel + 1, b :: rest, i, hle => by
    unfold waveLoopGo
    rw [waveLoopGo_eq_settleRow hC net fuel ((b :: rest).drop C)
      (i + ((b :: rest).take C).length) (by
        simp only [List.length_drop, List.length_cons] at hle ⊢
        omega)]
    rw [← settleRow_append, List.take_append_drop]

theorem waveLoop_eq_settleRow {C : Nat} (hC : 0 < C) (net : Nat → FetchResult)
    (i : Nat) (batches : List (List UploadFile)) :
    waveLoop C net i batches = settleRow net i batches :=
  waveLoopGo_eq_settleRow hC net batches.length batches i (Nat.le_refl _)

theorem chunksGo_flatten {α : Type} {B : Nat} (hB : 0 < B) :
    ∀ (fuel : Nat) (l : List α), l.length ≤ fuel → (chunksGo B fuel l).flatten = l
  | 0, l, hle => by
    have : l = [] := List.eq_nil_of_length_eq_zero (Nat.le_zero.mp hle)
    subst this
    rfl
  | fuel + 1, [], _ => rfl
  | fuel + 1, x :: xs, hle => by
    unfold chunksGo
    rw [List.flatten_cons,
      chunksGo_flatten hB fuel ((x :: xs).drop B) (by
        simp only [List.length_drop, List.length_cons] at hle ⊢
        omega),
      List.take_append_drop]

theorem chunksOf_flatten {α : Type} {B : Nat} (hB : 0 < B) (l : List α) :
    (chunksOf B l).flatten = l :=
  chunksGo_flatten hB l.length l (Nat.le_refl _)

/-- A backend response to one batch call conforms to the batch when, on the
success path, its `results` echo exactly the batch's filenames in order (the
error paths need nothing: there the route synthesizes the names itself). -/
def conformsB (r : FetchResult) (names : List String) : Bool :=
  match r with
  | FetchResult.thrown _ => true
  | FetchResult.resp hr =>
    if hr.ok = false then true
    else match hr.jsonR with
      | Except.error _ => true
      | Except.ok body =>
        if body.success && body.results.isSome then
          ((body.results.getD []).map (fun fr => (mapFileResult fr).filename)) == names
        else true

theorem settleAt_names {net : Nat → FetchResult} {i : Nat} {b : List UploadFile}
    (h : conformsB (net i) (b.map (fun f => f.name)) = true) :
    (settleAt net i b).map (fun r => r.filename) = b.map (fun f => f.name) := by
  rw [settleAt_eq_run]
  cases hni : net i with
  | thrown e => exact processBatchRun_names (by simp [errorCaseB])
  | resp r =>
    by_cases hok : r.ok = false
    · exact processBatchRun_names (by simp [errorCaseB, hok])
    · cases hj : r.jsonR with
      | error e => exact processBatchRun_names (by simp [errorCaseB, hok, hj])
      | ok body =>
        by_cases hcond : (body.success && body.results.isSome) = true
        · rw [hni] at h
          simp only [conformsB, hj] at h
          rw [if_neg hok, if_pos hcond] at h
          have hnames := eq_of_beq h
          have hp : body.success = true ∧ body.results.isSome = true := by
            simpa [Bool.and_eq_true] using hcond
          unfold processBatchRun processBatchE tryCatchE fetchAndParse
          simp only [hok, if_false, hj, if_pos (And.intro hp.1 hp.2)]
          simp
          exact hnames
        · exact processBatchRun_names (by simp [errorCaseB, hok, hj, hcond])

theorem settleRow_names {net : Nat → FetchResult} :
    ∀ (batches : List (List UploadFile)) (i : Nat),
      (∀ j, j < batches.length →
        conformsB (net (i + j)) ((batches.getD j []).map (fun f => f.name)) = true) →
      (settleRow net i batches).map (fun r => r.filename) =
        (batches.map (fun b => b.map (fun f => f.name))).flatten
  | [], _, _ => rfl
  | b :: rest, i, h => by
    show (settleAt net i b ++ settleRow net (i + 1) rest).map (fun r => r.filename) =
      ((b :: rest).map (fun b => b.map (fun f => f.name))).flatten
    rw [List.map_append, List.map_cons, List.flatten_cons]
    rw [settleAt_names (by simpa using h 0 (by simp))]
    rw [settleRow_names rest (i + 1) (fun j hj => by
      have hs := h (j + 1) (by simpa using Nat.succ_lt_succ hj)
      rwa [show i + (j + 1) = i + 1 + j by omega] at hs)]

/-- C2: for every batch size `B > 0` and concurrency `C > 0`, the orchestrator
partitions the files into consecutive batches of size `B`, and — whenever each
successful backend response echoes its batch's filenames — the final report
holds exactly one `FileOutcome` per input file, concatenated in schedule
order, i.e. in input order grouped by batch. -/
theorem claim2_batch_partition_report (B C : Nat) (files : List UploadFile)
    (net : Nat → FetchResult) (hB : 0 < B) (hC : 0 < C)
    (hconf : ∀ j, j < (chunksOf B files).length →
      conformsB (net j) (((chunksOf B files).getD j []).map (fun f => f.name)) = true) :
    (orchestrate B C files net).map (fun r => r.filename) =
      files.map (fun f => f.name) := by
  unfold orchestrate
  rw [waveLoop_eq_settleRow hC]
  rw [settleRow_names (chunksOf B files) 0 (fun j hj => by simpa using hconf j hj)]
  rw [← List.map_flatten, chunksOf_flatten hB]

/-- Five one-page documents. -/
def wFiles5 : List UploadFile :=
  [{ name := "f1.pdf", type := "application/pdf", size := 10 },
   { name := "f2.pdf", type := "application/pdf", size := 10 },
   { name := "f3.pdf", type := "application/pdf", size := 10 },
   { name := "f4.pdf", type := "application/pdf", size := 10 },
   { name := "f5.pdf", type := "application/pdf", size := 10 }]

/-- A conforming backend: every batch call succeeds and echoes its filenames. -/
def wNetOk : Nat → FetchResult := fun i =>
  FetchResult.resp
    { ok := true, status := 200, textR := Except.ok "",
      jsonR := Except.ok
        { success := true,
          results := some (((chunksOf 2 wFiles5).getD i []).map (fun f =>
            { filename := some f.name, success := some true })) } }

theorem claim2_witness :
    (∀ j, j < (chunksOf 2 wFiles5).length →
      conformsB (wNetOk j) (((chunksOf 2 wFiles5).getD j []).map (fun f => f.name)) =
        true) ∧
    (orchestrate 2 2 wFiles5 wNetOk).map (fun r => r.filename) =
      wFiles5.map (fun f => f.name) :=
  ⟨by decide,
   claim2_batch_partition_report 2 2 wFiles5 wNetOk (by decide) (by decide) (by decide)⟩

/-- C10: `processBatch` is total over its error cases — it always resolves
(never rejects), in every error case it resolves with exactly one outcome per
file of the batch carrying the file's own name, and consequently the wave
loop's rejected-promise branch (`settleAt`'s error arm) is unreachable. -/
theorem claim10_processBatch_total :
    (∀ (files : List UploadFile) (net : FetchResult),
      processBatchE files net = Except.ok (processBatchRun files net)) ∧
    (∀ (files : List UploadFile) (net : FetchResult), errorCaseB net = true →
      (processBatchRun files net).map (fun r => r.filename) =
        files.map (fun f => f.name)) ∧
    (∀ (net : Nat → FetchResult) (i : Nat) (b : List UploadFile),
      settleAt net i b = processBatchRun b (net i)) :=
  ⟨processBatchE_eq_run, fun _ _ h => processBatchRun_names h, settleAt_eq_run⟩

theorem claim10_witness :
    errorCaseB (FetchResult.thrown { isAbort := true, msg := "aborted" }) = true ∧
    (processBatchRun [{ name := "a.pdf", type := "application/pdf", size := 7 }]
        (FetchResult.thrown { isAbort := true, msg := "aborted" })).map
        (fun r => r.filename) =
      [({ name := "a.pdf", type := "application/pdf", size := 7 } : UploadFile)].map
        (fun f => f.name) :=
  ⟨by decide, claim10_processBatch_total.2.1 _ _ (by decide)⟩

/-- C1: when one batch call throws (a timeout-shaped `AbortError` or any
transport failure), the run still completes, every file of that batch receives
a failure outcome carrying the error reason (`"Request timeout"` on timeout),
and the outcomes of every other batch are exactly the ones produced under a
network that answers those calls identically — no batch's failure aborts
sibling batches or later waves. -/
theorem claim1_batch_failure_isolated (files : List UploadFile) (url : String)
    (net1 net2 : Nat → FetchResult) (k : Nat) (e : JsError)
    (hval : ∀ f ∈ files, f.type = "application/pdf" ∧ f.size ≤ maxFileSize)
    (hk : k < (chunksOf BATCH_SIZE files).length)
    (hke : net2 k = FetchResult.thrown e)
    (hagree : ∀ i, i ≠ k → net2 i = net1 i) :
    resultsOf (processInvoicesPOST ⟨some url, HealthOutcome.ok, net2⟩ files).1 =
      some (settleRow net1 0 ((chunksOf BATCH_SIZE files).take k) ++
        ((chunksOf BATCH_SIZE files).getD k []).map (fun f =>
          { filename := f.name, success := false,
            error := some (if e.isAbort then "Request timeout" else e.msg),
            processingTime := some 0 }) ++
        settleRow net1 (k + 1) ((chunksOf BATCH_SIZE files).drop (k + 1))) := by
  have hne : files ≠ [] := by
    intro h0
    subst h0
    simp [chunksOf, chunksGo] at hk
  have hvalid : validationError files = none := by
    unfold validationError firstInvalid
    rw [List.find?_eq_none.mpr (fun f hf => by
      obtain ⟨ht, hs⟩ := hval f hf
      simp [ht, Nat.not_lt.mpr hs])]
  have hpost : (processInvoicesPOST ⟨some url, HealthOutcome.ok, net2⟩ files).1 =
      PostResponse.completed
        (waveLoop MAX_CONCURRENT_BATCHES net2 0 (chunksOf BATCH_SIZE files))
        (mkStats files (chunksOf BATCH_SIZE files)
          (waveLoop MAX_CONCURRENT_BATCHES net2 0 (chunksOf BATCH_SIZE files))) := by
    simp only [processInvoicesPOST, if_neg hne, hvalid]
  rw [hpost]
  simp only [resultsOf]
  rw [waveLoop_eq_settleRow (by decide)]
  have hsplit : chunksOf BATCH_SIZE files =
      (chunksOf BATCH_SIZE files).take k ++
        ((chunksOf BATCH_SIZE files).getD k [] ::
          (chunksOf BATCH_SIZE files).drop (k + 1)) := by
    conv_lhs => rw [← List.take_append_drop k (chunksOf BATCH_SIZE files)]
    rw [List.drop_eq_getElem_cons hk, List.getD_eq_getElem?_getD,
      List.getElem?_eq_getElem hk]
    rfl
  conv_lhs => rw [hsplit]
  rw [settleRow_append]
  have hlen : ((chunksOf BATCH_SIZE files).take k).length = k := by
    rw [List.length_take]
    omega
  rw [hlen]
  have hhead : settleRow net2 0 ((chunksOf BATCH_SIZE files).take k) =
      settleRow net1 0 ((chunksOf BATCH_SIZE files).take k) := by
    refine settleRow_congr _ 0 ?_
    intro j hj
    rw [List.length_take] at hj
    exact hagree (0 + j) (by omega)
  have htailrow : settleRow net2 (0 + k + 1) ((chunksOf BATCH_SIZE files).drop (k + 1)) =
      settleRow net1 (k + 1) ((chunksOf BATCH_SIZE files).drop (k + 1)) := by
    rw [show 0 + k + 1 = k + 1 by omega]
    refine settleRow_congr _ (k + 1) ?_
    intro j hj
    exact hagree (k + 1 + j) (by omega)
  have hk2 : settleAt net2 (0 + k) ((chunksOf BATCH_SIZE files).getD k []) =
      ((chunksOf BATCH_SIZE files).getD k []).map (fun f =>
        { filename := f.name, success := false,
          error := some (if e.isAbort then "Request timeout" else e.msg),
          processingTime := some 0 }) := by
    rw [show 0 + k = k by omega]
    unfold settleAt processBatchE tryCatchE fetchAndParse
    rw [hke]
    unfold catchOutcomes
    by_cases ha : e.isAbort = true <;>
      simp [ha, timeoutOutcome, errorOutcome]
  rw [show settleRow net2 (0 + k)
        ((chunksOf BATCH_SIZE files).getD k [] ::
          (chunksOf BATCH_SIZE files).drop (k + 1)) =
      settleAt net2 (0 + k) ((chunksOf BATCH_SIZE files).getD k []) ++
        settleRow net2 (0 + k + 1) ((chunksOf BATCH_SIZE files).drop (k + 1)) from rfl]
  rw [hhead, htailrow, hk2, ← List.append_assoc]

/-- A timeout-shaped thrown error (JavaScript `AbortError`). -/
def wAbortErr : JsError := { isAbort := true, msg := "The operation was aborted" }

/-- A network on which every batch call fails at the transport level. -/
def wNet1 : Nat → FetchResult :=
  fun _ => FetchResult.thrown { isAbort := false, msg := "ECONNRESET" }

/-- `wNet1`, except that the second scheduled batch call times out. -/
def wNet2 : Nat → FetchResult :=
  fun i => if i = 1 then FetchResult.thrown wAbortErr else wNet1 i

theorem claim1_witness :
    resultsOf (processInvoicesPOST
        ⟨some "http://backend", HealthOutcome.ok, wNet2⟩ wFiles5).1 =
      some (settleRow wNet1 0 ((chunksOf BATCH_SIZE wFiles5).take 1) ++
        ((chunksOf BATCH_SIZE wFiles5).getD 1 []).map (fun f =>
          { filename := f.name, success := false,
            error := some (if wAbortErr.isAbort then "Request timeout" else wAbortErr.msg),
            processingTime := some 0 }) ++
        settleRow wNet1 (1 + 1) ((chunksOf BATCH_SIZE wFiles5).drop (1 + 1))) :=
  claim1_batch_failure_isolated wFiles5 "http://backend" wNet1 wNet2 1 wAbortErr
    (by decide) (by decide) rfl (fun i hi => by simp [wNet2, hi])

/-- Is this response one of the two validation errors? -/
def isValidationErrorB : PostResponse → Bool
  | PostResponse.invalidFileType => true
  | PostResponse.oversizeFile _ => true
  | _ => false

/-- Is this multi-route response one of the two validation errors? -/
def isValidationErrorMB : MultiResponse → Bool
  | MultiResponse.invalidFileType => true
  | MultiResponse.oversizeFile _ => true
  | _ => false

/-- C8: a submission containing any file with the wrong content-type or over
the 5 MiB cap is rejected by both route handlers with a single validation
error, and no network call at all is issued (neither the health probe nor the
extraction call), whatever the rest of the environment. -/
theorem claim8_validation_before_network (files : List UploadFile)
    (envB : BatchEnv) (envM : MultiEnv)
    (hbad : ∃ f, f ∈ files ∧ (f.type ≠ "application/pdf" ∨ maxFileSize < f.size)) :
    (isValidationErrorB (processInvoicesPOST envB files).1 = true ∧
      (processInvoicesPOST envB files).2 = []) ∧
    (isValidationErrorMB (processMultiplePOST envM files).1 = true ∧
      (processMultiplePOST envM files).2 = []) := by
  obtain ⟨f0, hmem, hbad0⟩ := hbad
  have hne : files ≠ [] := by
    intro h0
    subst h0
    exact absurd hmem (List.not_mem_nil f0)
  have hsome : ∃ g, firstInvalid files = some g := by
    refine Option.isSome_iff_exists.mp ?_
    refine List.find?_isSome.mpr ⟨f0, hmem, ?_⟩
    rcases hbad0 with h | h <;> simp [h]
  obtain ⟨g, hg⟩ := hsome
  have hv : validationError files =
      some (if g.type ≠ "application/pdf" then PostResponse.invalidFileType
            else PostResponse.oversizeFile g.name) := by
    unfold validationError
    rw [hg]
  constructor
  · simp only [processInvoicesPOST, if_neg hne, hv]
    refine ⟨?_, trivial⟩
    by_cases hgt : g.type ≠ "application/pdf" <;> simp [hgt, isValidationErrorB]
  · simp only [processMultiplePOST, if_neg hne, hg]
    refine ⟨?_, trivial⟩
    by_cases hgt : g.type ≠ "application/pdf" <;> simp [hgt, isValidationErrorMB]

/-- A submission containing one plain-text file. -/
def wBadFiles : List UploadFile := [{ name := "a.txt", type := "text/plain", size := 3 }]

theorem claim8_witness :
    (isValidationErrorB (processInvoicesPOST
        ⟨none, HealthOutcome.ok, wNet1⟩ wBadFiles).1 = true ∧
      (processInvoicesPOST ⟨none, HealthOutcome.ok, wNet1⟩ wBadFiles).2 = []) ∧
    (isValidationErrorMB (processMultiplePOST
        ⟨none, HealthOutcome.ok, MultiParseOutcome.thrown "boom"⟩ wBadFiles).1 = true ∧
      (processMultiplePOST ⟨none, HealthOutcome.ok, MultiParseOutcome.thrown "boom"⟩
          wBadFiles).2 = []) :=
  claim8_validation_before_network wBadFiles _ _
    ⟨{ name := "a.txt", type := "text/plain", size := 3 }, by decide, Or.inl (by decide)⟩

end Invoice
